import Mathlib

/-!
# Sokoban puzzle engine (`src/Sokoban.hpp`, `src/Sokoban.cpp`)

A shallow embedding of the puzzle state machine of `SB::Sokoban`: the board,
`movePlayer` / `isValidMove` / `pushBox`, `checkWinCondition`, and the
`saveState` / `undo` / `redo` / `reset` history mechanism.

Modelling conventions.

* `std::vector<std::vector<char>>` is a `List (List Char)`; a cell is the `char` the
  source stores (`'#'` wall, `'.'` floor, `'a'` target, `'A'` crate, `'1'` crate on target).
* `int` is `Int`.  Signed overflow is undefined in the source and is not modelled: a
  coordinate changes by one step per call and only towards a cell that passed `isValidMove`,
  and `moveCount` grows by one per stored snapshot, so neither comes near the 32-bit range.
* `operator[]` of `std::vector` is undefined outside the vector.  Every indexed read or write
  goes through `cellAt` / `setCell`, which return `none` there, and the operations that index
  the board (`isValidMove`, `pushBox`, `movePlayer`) return an `Option`; `none` means that the
  source would have indexed outside a vector.  Where the source reads one cell several times
  with no write in between (`c == 'A' || c == '1'`), the model reads it once.
* The `std::vector<GameState>` stacks are lists with the most recent entry last
  (`push_back` is `++ [_]`, `back` is `getLast?`, `pop_back` is `dropLast`).
* Rendering state (`textures`, `sprites`, the sound buffer) and the floating point
  `elapsedTime` are not part of the model.  The one observable effect of the audio objects,
  the call `victorySound.play()`, is recorded by the counter `victorySoundPlays`.
-/

namespace SB

/-- The scoped enumeration `Direction` of `Sokoban.hpp`. -/
inductive Direction where
  | Up
  | Down
  | Left
  | Right
  deriving DecidableEq, Repr

/-- The integer pair `sf::Vector2i`. -/
structure Vector2i where
  x : Int
  y : Int
  deriving DecidableEq, Repr

/-- The type of `gameBoard`: rows of cells, row `y` holding the cells `(0,y), (1,y), ...`. -/
abbrev Board := List (List Char)

/-- The private snapshot record `Sokoban::GameState`. -/
structure GameState where
  playerPosition : Vector2i
  gameBoard : Board
  moveCount : Int
  deriving DecidableEq, Repr

/-- The data members of `class Sokoban` that the puzzle logic reads or writes, together with
the counter `victorySoundPlays` of calls to `victorySound.play()`. -/
structure Sokoban where
  boardWidth : Int
  boardHeight : Int
  playerPosition : Vector2i
  initialPlayerPosition : Vector2i
  gameBoard : Board
  initialGameBoard : Board
  gameWon : Bool
  moveCount : Int
  victorySoundPlayed : Bool
  lastDirection : Direction
  undoStack : List GameState
  redoStack : List GameState
  victorySoundPlays : Nat
  deriving DecidableEq, Repr

/-- The read `board[y][x]`; `none` where the source would index outside a vector. -/
def cellAt (board : Board) (x y : Int) : Option Char :=
  if 0 ≤ x ∧ 0 ≤ y then
    match board[y.toNat]? with
    | some row => row[x.toNat]?
    | none => none
  else none

/-- The write `board[y][x] = c`; `none` where the source would index outside a vector. -/
def setCell (board : Board) (x y : Int) (c : Char) : Option Board :=
  if 0 ≤ x ∧ 0 ≤ y then
    match board[y.toNat]? with
    | some row =>
      if x.toNat < row.length then some (board.set y.toNat (row.set x.toNat c)) else none
    | none => none
  else none

/-- The `switch (direction)` that `movePlayer` and `pushBox` both start with: the pair
`(dx, dy)`. -/
def directionOffset : Direction → Int × Int
  | Direction.Up => (0, -1)
  | Direction.Down => (0, 1)
  | Direction.Left => (-1, 0)
  | Direction.Right => (1, 0)

namespace Sokoban

/-- The default constructor `Sokoban::Sokoban()`: a zero-sized engine. -/
def init : Sokoban where
  boardWidth := 0
  boardHeight := 0
  playerPosition := ⟨0, 0⟩
  initialPlayerPosition := ⟨0, 0⟩
  gameBoard := []
  initialGameBoard := []
  gameWon := false
  moveCount := 0
  victorySoundPlayed := false
  lastDirection := Direction.Down
  undoStack := []
  redoStack := []
  victorySoundPlays := 0

end Sokoban

/-- What `operator>>` leaves in the engine after reading a level file: the two dimensions,
the board (with the cell under `'@'` turned into floor) and the player position. -/
structure Level where
  boardHeight : Int
  boardWidth : Int
  gameBoard : Board
  playerPosition : Vector2i
  deriving DecidableEq, Repr

namespace Sokoban

/-- The constructor `Sokoban::Sokoban(const std::string&)`.  `file` is `none` when the file
cannot be opened, and otherwise holds what `file >> *this` stored; the two initial members
are then copied from the live ones. -/
def load (file : Option Level) : Sokoban :=
  match file with
  | none => init
  | some lv =>
    { init with
      boardHeight := lv.boardHeight
      boardWidth := lv.boardWidth
      gameBoard := lv.gameBoard
      playerPosition := lv.playerPosition
      initialGameBoard := lv.gameBoard
      initialPlayerPosition := lv.playerPosition }

/-- `Sokoban::isWon`. -/
def isWon (s : Sokoban) : Bool := s.gameWon

/-- `Sokoban::playerLoc`. -/
def playerLoc (s : Sokoban) : Vector2i := s.playerPosition

/-- `Sokoban::getMoveCount`. -/
def getMoveCount (s : Sokoban) : Int := s.moveCount

/-- `Sokoban::isValidMove`.  The conjunction is evaluated left to right, so the board is
read only when the four comparisons hold. -/
def isValidMove (s : Sokoban) (x y : Int) : Option Bool :=
  if x ≥ 0 ∧ x < s.boardWidth ∧ y ≥ 0 ∧ y < s.boardHeight then
    match cellAt s.gameBoard x y with
    | some c => some (c != '#')
    | none => none
  else some false

/-- `Sokoban::pushBox`: the returned flag and the engine afterwards.  The cell beyond the
crate is written first, then the crate's own cell is read and rewritten. -/
def pushBox (s : Sokoban) (x y : Int) (direction : Direction) : Option (Bool × Sokoban) :=
  let newBoxX := x + (directionOffset direction).1
  let newBoxY := y + (directionOffset direction).2
  match s.isValidMove newBoxX newBoxY with
  | none => none
  | some false => some (false, s)
  | some true =>
    match cellAt s.gameBoard newBoxX newBoxY with
    | none => none
    | some c =>
      if c ≠ 'A' ∧ c ≠ '1' then
        match setCell s.gameBoard newBoxX newBoxY (if c = 'a' then '1' else 'A') with
        | none => none
        | some b1 =>
          match cellAt b1 x y with
          | none => none
          | some c0 =>
            match setCell b1 x y (if c0 = '1' then 'a' else '.') with
            | none => none
            | some b2 => some (true, { s with gameBoard := b2 })
      else some (false, s)

/-- The scan of `checkWinCondition`: does some cell hold a bare crate `'A'`? -/
def hasBareCrate (board : Board) : Bool :=
  board.any (fun row => row.any (fun cell => cell == 'A'))

/-- `Sokoban::checkWinCondition`.  A bare crate clears `gameWon` and returns at once;
otherwise `gameWon` is set and the victory sound is played unless it was played before. -/
def checkWinCondition (s : Sokoban) : Sokoban :=
  if hasBareCrate s.gameBoard = true then { s with gameWon := false }
  else if s.victorySoundPlayed = false then
    { s with gameWon := true, victorySoundPlayed := true,
             victorySoundPlays := s.victorySoundPlays + 1 }
  else { s with gameWon := true }

/-- `Sokoban::saveState`. -/
def saveState (s : Sokoban) : Sokoban :=
  { s with
    undoStack := s.undoStack ++ [⟨s.playerPosition, s.gameBoard, s.moveCount⟩]
    redoStack := [] }

/-- `Sokoban::movePlayer`. -/
def movePlayer (s : Sokoban) (direction : Direction) : Option Sokoban :=
  if s.gameWon = true then some s
  else
    let newX := s.playerPosition.x + (directionOffset direction).1
    let newY := s.playerPosition.y + (directionOffset direction).2
    match s.isValidMove newX newY with
    | none => none
    | some false => some s
    | some true =>
      let s1 := s.saveState
      match cellAt s1.gameBoard newX newY with
      | none => none
      | some c =>
        if c = 'A' ∨ c = '1' then
          match s1.pushBox newX newY direction with
          | none => none
          | some (true, s2) =>
            some (checkWinCondition
              { s2 with playerPosition := ⟨newX, newY⟩, moveCount := s2.moveCount + 1,
                        lastDirection := direction })
          | some (false, s2) =>
            some (checkWinCondition { s2 with lastDirection := direction })
        else
          some (checkWinCondition
            { s1 with playerPosition := ⟨newX, newY⟩, moveCount := s1.moveCount + 1,
                      lastDirection := direction })

/-- `Sokoban::reset` (the assignment to `elapsedTime` is outside the model). -/
def reset (s : Sokoban) : Sokoban :=
  { s with
    playerPosition := s.initialPlayerPosition
    gameBoard := s.initialGameBoard
    gameWon := false
    victorySoundPlayed := false
    undoStack := []
    redoStack := []
    moveCount := 0
    lastDirection := Direction.Down }

/-- `Sokoban::undo`. -/
def undo (s : Sokoban) : Sokoban :=
  match s.undoStack.getLast? with
  | none => s
  | some state =>
    { s with
      redoStack := s.redoStack ++ [⟨s.playerPosition, s.gameBoard, s.moveCount⟩]
      undoStack := s.undoStack.dropLast
      playerPosition := state.playerPosition
      gameBoard := state.gameBoard
      moveCount := state.moveCount
      gameWon := false }

/-- `Sokoban::redo`. -/
def redo (s : Sokoban) : Sokoban :=
  match s.redoStack.getLast? with
  | none => s
  | some state =>
    checkWinCondition
      { s with
        undoStack := s.undoStack ++ [⟨s.playerPosition, s.gameBoard, s.moveCount⟩]
        redoStack := s.redoStack.dropLast
        playerPosition := state.playerPosition
        gameBoard := state.gameBoard
        moveCount := state.moveCount }

end Sokoban

/-- The commands that the key handler of `main.cpp` issues to the engine. -/
inductive Command where
  | move (direction : Direction)
  | undo
  | redo
  | reset
  deriving DecidableEq, Repr

namespace Sokoban

/-- One command of the key handler applied to the engine. -/
def exec (s : Sokoban) : Command → Option Sokoban
  | Command.move direction => s.movePlayer direction
  | Command.undo => some s.undo
  | Command.redo => some s.redo
  | Command.reset => some s.reset

/-- A sequence of commands applied from left to right. -/
def run (s : Sokoban) : List Command → Option Sokoban
  | [] => some s
  | c :: cs =>
    match s.exec c with
    | none => none
    | some s1 => s1.run cs

end Sokoban

/-- The board is rectangular: `h` rows of `w` cells each. -/
def Rectangular (w h : Int) (board : Board) : Prop :=
  (board.length : Int) = h ∧ ∀ row ∈ board, (row.length : Int) = w

instance (w h : Int) (board : Board) : Decidable (Rectangular w h board) := by
  unfold Rectangular
  infer_instance

/-- A cell holds a crate: `'A'` or `'1'`. -/
def isCrate (c : Char) : Bool := c == 'A' || c == '1'

/-- The number of cells of the board that hold a crate. -/
def crateCount (board : Board) : Nat :=
  (board.map (fun row => row.countP isCrate)).sum

/-- The position lies on a board of `w` by `h` cells. -/
def InBounds (w h : Int) (p : Vector2i) : Prop :=
  0 ≤ p.x ∧ p.x < w ∧ 0 ≤ p.y ∧ p.y < h

instance (w h : Int) (p : Vector2i) : Decidable (InBounds w h p) := by
  unfold InBounds
  infer_instance

/-- A small level, `#####` / `#@Aa#` / `#####`. -/
def demoLevel : Level where
  boardHeight := 3
  boardWidth := 5
  gameBoard := ["#####".toList, "#.Aa#".toList, "#####".toList]
  playerPosition := ⟨1, 1⟩

/-- Every position and board the engine holds satisfies `P`: the live pair, the initial pair,
and each snapshot on the undo and redo stacks. -/
def Sokoban.Everywhere (P : Vector2i → Board → Prop) (s : Sokoban) : Prop :=
  P s.playerPosition s.gameBoard ∧
    P s.initialPlayerPosition s.initialGameBoard ∧
    (∀ g ∈ s.undoStack, P g.playerPosition g.gameBoard) ∧
    (∀ g ∈ s.redoStack, P g.playerPosition g.gameBoard)

/-- The move in direction `d` is accepted: the puzzle is not won, and the cell next to the
player in direction `d` lies on the board and is not a wall. -/
def Sokoban.Accepts (s : Sokoban) (d : Direction) : Prop :=
  s.gameWon = false ∧
    InBounds s.boardWidth s.boardHeight
      ⟨s.playerPosition.x + (directionOffset d).1, s.playerPosition.y + (directionOffset d).2⟩ ∧
    cellAt s.gameBoard (s.playerPosition.x + (directionOffset d).1)
      (s.playerPosition.y + (directionOffset d).2) ≠ some '#'

instance (s : Sokoban) (d : Direction) : Decidable (s.Accepts d) := by
  unfold Sokoban.Accepts
  infer_instance

/-- A second level, with a free crate, a crate resting on a target next to a wall, and a
free target:  `#######` / `#..A.a#` / `#..1#.#` / `#######`, the player starting at `(2,1)`. -/
def yardLevel : Level where
  boardHeight := 4
  boardWidth := 7
  gameBoard := ["#######".toList, "#..A.a#".toList, "#..1#.#".toList, "#######".toList]
  playerPosition := ⟨2, 1⟩

/-- The engine loaded with `demoLevel` after the winning push to the right. -/
def demoPushed : Sokoban :=
  ((Sokoban.load (some demoLevel)).movePlayer Direction.Right).getD Sokoban.init

/-- The engine `demoPushed` after one `undo`: the redo stack holds the winning state. -/
def demoUndone : Sokoban := demoPushed.undo

/-- A one-row level whose only crate stands against a wall, `.@A#`: the player starts at
`(1,0)`, the crate is at `(2,0)` and the wall at `(3,0)`. -/
def blockedLevel : Level where
  boardHeight := 1
  boardWidth := 4
  gameBoard := ["..A#".toList]
  playerPosition := ⟨1, 0⟩

/-- The engine loaded with `blockedLevel` after a step to the left and an `undo`: the player is
back at `(1,0)`, the undo stack is empty and the redo stack holds one snapshot. -/
def blockedState : Sokoban :=
  ((Sokoban.load (some blockedLevel)).run
    [Command.move Direction.Left, Command.undo]).getD Sokoban.init

/-- A one-row level whose only crate already rests on a target, against a wall, `@1#`: the
player starts at `(0,0)`, the crate is at `(1,0)` and the wall at `(2,0)`. -/
def restingLevel : Level where
  boardHeight := 1
  boardWidth := 3
  gameBoard := [".1#".toList]
  playerPosition := ⟨0, 0⟩

/-- The engine is sound for a `w` by `h` board: its two dimensions are `w` and `h`, and every
board it holds (live, initial, and in each snapshot of the two stacks) is rectangular. -/
def Sokoban.Sound (w h : Int) (s : Sokoban) : Prop :=
  s.boardWidth = w ∧ s.boardHeight = h ∧ s.Everywhere (fun _ b => Rectangular w h b)

/-- The direction opposite to `d`. -/
def opposite : Direction → Direction
  | Direction.Up => Direction.Down
  | Direction.Down => Direction.Up
  | Direction.Left => Direction.Right
  | Direction.Right => Direction.Left

/-- A one-row level with no bare crate, `@.1`: the player starts at `(0,0)`, `(1,0)` is floor
and `(2,0)` holds a crate already on its target. -/
def idleLevel : Level where
  boardHeight := 1
  boardWidth := 3
  gameBoard := ["..1".toList]
  playerPosition := ⟨0, 0⟩

/-- A one-row level file without the player mark, `#.A`: `operator>>` never assigns
`playerPosition`, which keeps its initial value `(0,0)`, the cell of the wall. -/
def strayLevel : Level where
  boardHeight := 1
  boardWidth := 3
  gameBoard := ["#.A".toList]
  playerPosition := ⟨0, 0⟩

/-- The engine loaded with `yardLevel` after one step to the left: the player is at `(1,1)`. -/
def yardStepped : Sokoban :=
  ((Sokoban.load (some yardLevel)).run [Command.move Direction.Left]).getD Sokoban.init

/-- The engine loaded with `yardLevel` after a step down: the player at `(2,2)` faces the
crate at `(3,2)`, which has the wall at `(4,2)` behind it. -/
def yardBlocked : Sokoban :=
  ((Sokoban.load (some yardLevel)).run [Command.move Direction.Down]).getD Sokoban.init

/-- The engine loaded with `yardLevel`, with the player moved off the board to `(-3, 9)`. -/
def yardOutside : Sokoban :=
  { Sokoban.load (some yardLevel) with playerPosition := ⟨-3, 9⟩ }

/-- A cell holds a wall `'#'`. -/
def isWall (c : Char) : Bool := c == '#'

/-- A cell bears a target: the bare target `'a'` or a crate on a target `'1'`. -/
def isTargetBearing (c : Char) : Bool := c == 'a' || c == '1'

/-- The number of cells of the board that satisfy `p`. -/
def cellCount (p : Char → Bool) (board : Board) : Nat :=
  (board.map (fun row => row.countP p)).sum

/-- The cell at `(x, y)` exists and satisfies `p`. -/
def cellIs (p : Char → Bool) (board : Board) (x y : Int) : Bool :=
  match cellAt board x y with
  | some c => p c
  | none => false

/-- The won flag is set in `s` or in some state that the run of `cs` from `s` passes through
(the state it ends in included). -/
def Sokoban.everWon (s : Sokoban) : List Command → Bool
  | [] => s.gameWon
  | c :: cs =>
    s.gameWon ||
      match s.exec c with
      | none => false
      | some s1 => s1.everWon cs

/-- The engine loaded with `demoLevel` after the winning push and a `reset`. -/
def demoReset : Sokoban :=
  ((Sokoban.load (some demoLevel)).run [Command.move Direction.Right, Command.reset]).getD
    Sokoban.init

/-! ## Reading and writing cells -/

theorem cellAt_eq_some {board : Board} {x y : Int} {c : Char} :
    cellAt board x y = some c ↔
      0 ≤ x ∧ 0 ≤ y ∧ ∃ row, board[y.toNat]? = some row ∧ row[x.toNat]? = some c := by
  unfold cellAt
  by_cases hxy : 0 ≤ x ∧ 0 ≤ y
  · rw [if_pos hxy]
    cases hrow : board[y.toNat]? with
    | none => simp
    | some row => simp [hxy.1, hxy.2]
  · rw [if_neg hxy]
    constructor
    · intro h
      cases h
    · rintro ⟨hx, hy, -⟩
      exact absurd ⟨hx, hy⟩ hxy

theorem setCell_eq_some {board b1 : Board} {x y : Int} {c : Char} :
    setCell board x y c = some b1 ↔
      0 ≤ x ∧ 0 ≤ y ∧ ∃ row, board[y.toNat]? = some row ∧ x.toNat < row.length ∧
        b1 = board.set y.toNat (row.set x.toNat c) := by
  unfold setCell
  by_cases hxy : 0 ≤ x ∧ 0 ≤ y
  · rw [if_pos hxy]
    cases hrow : board[y.toNat]? with
    | none => simp
    | some row =>
      by_cases hlt : x.toNat < row.length
      · simp only [if_pos hlt, Option.some.injEq]
        constructor
        · intro he
          exact ⟨hxy.1, hxy.2, row, rfl, hlt, he.symm⟩
        · rintro ⟨-, -, row1, hrow1, -, he⟩
          cases hrow1
          exact he.symm
      · simp only [if_neg hlt]
        constructor
        · intro he
          cases he
        · rintro ⟨-, -, row1, hrow1, hlt1, -⟩
          cases hrow1
          exact absurd hlt1 hlt
  · rw [if_neg hxy]
    constructor
    · intro h
      cases h
    · rintro ⟨hx, hy, -⟩
      exact absurd ⟨hx, hy⟩ hxy

theorem cellAt_bounds {w h : Int} {board : Board} {x y : Int} {c : Char}
    (hr : Rectangular w h board) (hc : cellAt board x y = some c) :
    0 ≤ x ∧ x < w ∧ 0 ≤ y ∧ y < h := by
  obtain ⟨hx, hy, row, hrow, hcell⟩ := cellAt_eq_some.1 hc
  obtain ⟨hy1, hrow1⟩ := List.getElem?_eq_some.1 hrow
  obtain ⟨hx1, -⟩ := List.getElem?_eq_some.1 hcell
  have hmem : row ∈ board := hrow1 ▸ List.getElem_mem hy1
  have hw := hr.2 row hmem
  have hh := hr.1
  omega

theorem cellAt_isSome {w h : Int} {board : Board} {x y : Int}
    (hr : Rectangular w h board) (hx : 0 ≤ x) (hxw : x < w) (hy : 0 ≤ y) (hyh : y < h) :
    ∃ c, cellAt board x y = some c := by
  have hy1 : y.toNat < board.length := by
    have := hr.1
    omega
  have hmem : board[y.toNat] ∈ board := List.getElem_mem hy1
  have hw := hr.2 _ hmem
  have hx1 : x.toNat < (board[y.toNat]).length := by omega
  refine ⟨(board[y.toNat])[x.toNat], cellAt_eq_some.2 ⟨hx, hy, board[y.toNat], ?_, ?_⟩⟩
  · exact List.getElem?_eq_getElem hy1
  · exact List.getElem?_eq_getElem hx1

theorem setCell_isSome {board : Board} {x y : Int} {c0 : Char} (c : Char)
    (hc : cellAt board x y = some c0) : ∃ b1, setCell board x y c = some b1 := by
  obtain ⟨hx, hy, row, hrow, hcell⟩ := cellAt_eq_some.1 hc
  obtain ⟨hx1, -⟩ := List.getElem?_eq_some.1 hcell
  exact ⟨_, setCell_eq_some.2 ⟨hx, hy, row, hrow, hx1, rfl⟩⟩

theorem cellAt_setCell_self {board b1 : Board} {x y : Int} {c : Char}
    (hs : setCell board x y c = some b1) : cellAt b1 x y = some c := by
  obtain ⟨hx, hy, row, hrow, hlt, rfl⟩ := setCell_eq_some.1 hs
  obtain ⟨hy1, -⟩ := List.getElem?_eq_some.1 hrow
  refine cellAt_eq_some.2 ⟨hx, hy, row.set x.toNat c, ?_, ?_⟩
  · rw [List.getElem?_set_self hy1]
  · rw [List.getElem?_set_self hlt]

theorem cellAt_setCell_of_ne {board b1 : Board} {x y : Int} {c : Char}
    (hs : setCell board x y c = some b1) (x1 y1 : Int) (hne : ¬(x1 = x ∧ y1 = y)) :
    cellAt b1 x1 y1 = cellAt board x1 y1 := by
  obtain ⟨hx, hy, row, hrow, hlt, rfl⟩ := setCell_eq_some.1 hs
  unfold cellAt
  by_cases hxy : 0 ≤ x1 ∧ 0 ≤ y1
  · rw [if_pos hxy, if_pos hxy]
    by_cases hyy : y1 = y
    · subst hyy
      have hxx : x.toNat ≠ x1.toNat := by
        intro he
        apply hne
        refine ⟨?_, rfl⟩
        have := hxy.1
        omega
      obtain ⟨hy1, -⟩ := List.getElem?_eq_some.1 hrow
      rw [List.getElem?_set_self hy1, hrow]
      simp only []
      rw [List.getElem?_set_ne hxx]
    · have hyn : y.toNat ≠ y1.toNat := by
        have := hxy.2
        omega
      rw [List.getElem?_set_ne hyn]
  · rw [if_neg hxy, if_neg hxy]

theorem rectangular_setCell {w h : Int} {board b1 : Board} {x y : Int} {c : Char}
    (hs : setCell board x y c = some b1) (hr : Rectangular w h board) :
    Rectangular w h b1 := by
  obtain ⟨hx, hy, row, hrow, hlt, rfl⟩ := setCell_eq_some.1 hs
  obtain ⟨hy1, hrow1⟩ := List.getElem?_eq_some.1 hrow
  refine ⟨by simpa using hr.1, ?_⟩
  intro r hmem
  rcases List.mem_or_eq_of_mem_set hmem with hin | heq
  · exact hr.2 r hin
  · subst heq
    have hmem1 : row ∈ board := hrow1 ▸ List.getElem_mem hy1
    simpa using hr.2 row hmem1

theorem crateCount_set (board : Board) (j : Nat) (row r1 : List Char)
    (hrow : board[j]? = some row) :
    crateCount (board.set j r1) + row.countP isCrate =
      crateCount board + r1.countP isCrate := by
  induction board generalizing j with
  | nil => simp at hrow
  | cons r rest ih =>
    cases j with
    | zero =>
      simp only [List.getElem?_cons_zero, Option.some.injEq] at hrow
      subst hrow
      simp only [crateCount, List.set_cons_zero, List.map_cons, List.sum_cons]
      omega
    | succ j =>
      simp only [List.getElem?_cons_succ] at hrow
      have := ih j hrow
      simp only [crateCount, List.set_cons_succ, List.map_cons, List.sum_cons] at this ⊢
      omega

theorem crateCount_setCell {board b1 : Board} {x y : Int} {c c0 : Char}
    (hs : setCell board x y c = some b1) (hc : cellAt board x y = some c0) :
    crateCount b1 + (if isCrate c0 then 1 else 0) =
      crateCount board + (if isCrate c then 1 else 0) := by
  obtain ⟨hx, hy, row, hrow, hlt, rfl⟩ := setCell_eq_some.1 hs
  obtain ⟨-, -, row1, hrow1, hcell⟩ := cellAt_eq_some.1 hc
  rw [hrow] at hrow1
  cases hrow1
  obtain ⟨hlt1, hget⟩ := List.getElem?_eq_some.1 hcell
  have h1 := crateCount_set board y.toNat row (row.set x.toNat c) hrow
  have h2 := List.countP_set isCrate row x.toNat c hlt
  have h3 := List.boole_getElem_le_countP isCrate row x.toNat hlt
  rw [hget] at h2 h3
  omega

/-! ## `isValidMove` and `pushBox` -/

theorem directionOffset_ne_zero (d : Direction) :
    ¬((directionOffset d).1 = 0 ∧ (directionOffset d).2 = 0) := by
  cases d <;> simp [directionOffset]

theorem isValidMove_eq_true {s : Sokoban} {x y : Int} :
    s.isValidMove x y = some true ↔
      (0 ≤ x ∧ x < s.boardWidth ∧ 0 ≤ y ∧ y < s.boardHeight) ∧
        ∃ c, cellAt s.gameBoard x y = some c ∧ c ≠ '#' := by
  unfold Sokoban.isValidMove
  by_cases hb : x ≥ 0 ∧ x < s.boardWidth ∧ y ≥ 0 ∧ y < s.boardHeight
  · rw [if_pos hb]
    cases hc : cellAt s.gameBoard x y with
    | none => simp
    | some c => simp [hb.1, hb.2.1, hb.2.2.1, hb.2.2.2]
  · rw [if_neg hb]
    constructor
    · intro h
      cases h
    · rintro ⟨hb1, -⟩
      exact absurd hb1 hb

theorem isValidMove_eq_false {s : Sokoban} {x y : Int} :
    s.isValidMove x y = some false ↔
      ¬(0 ≤ x ∧ x < s.boardWidth ∧ 0 ≤ y ∧ y < s.boardHeight) ∨
        ((0 ≤ x ∧ x < s.boardWidth ∧ 0 ≤ y ∧ y < s.boardHeight) ∧
          cellAt s.gameBoard x y = some '#') := by
  unfold Sokoban.isValidMove
  by_cases hb : x ≥ 0 ∧ x < s.boardWidth ∧ y ≥ 0 ∧ y < s.boardHeight
  · rw [if_pos hb]
    cases hc : cellAt s.gameBoard x y with
    | none => simp [hb.1, hb.2.1, hb.2.2.1, hb.2.2.2]
    | some c => simp [hb.1, hb.2.1, hb.2.2.1, hb.2.2.2]
  · rw [if_neg hb]
    simp only [true_iff]
    exact Or.inl hb

theorem isValidMove_isSome {s : Sokoban} (x y : Int)
    (hr : Rectangular s.boardWidth s.boardHeight s.gameBoard) :
    ∃ v, s.isValidMove x y = some v := by
  unfold Sokoban.isValidMove
  by_cases hb : x ≥ 0 ∧ x < s.boardWidth ∧ y ≥ 0 ∧ y < s.boardHeight
  · rw [if_pos hb]
    obtain ⟨c, hc⟩ := cellAt_isSome hr hb.1 hb.2.1 hb.2.2.1 hb.2.2.2
    rw [hc]
    exact ⟨_, rfl⟩
  · rw [if_neg hb]
    exact ⟨_, rfl⟩

theorem pushBox_cases {s s2 : Sokoban} {x y : Int} {d : Direction} {r : Bool}
    (h : s.pushBox x y d = some (r, s2)) :
    (r = false ∧ s2 = s ∧
      (s.isValidMove (x + (directionOffset d).1) (y + (directionOffset d).2) = some false ∨
        cellAt s.gameBoard (x + (directionOffset d).1) (y + (directionOffset d).2) = some 'A' ∨
        cellAt s.gameBoard (x + (directionOffset d).1) (y + (directionOffset d).2) = some '1')) ∨
    (r = true ∧ ∃ c c0 b1 b2,
      s.isValidMove (x + (directionOffset d).1) (y + (directionOffset d).2) = some true ∧
      cellAt s.gameBoard (x + (directionOffset d).1) (y + (directionOffset d).2) = some c ∧
      c ≠ 'A' ∧ c ≠ '1' ∧
      setCell s.gameBoard (x + (directionOffset d).1) (y + (directionOffset d).2)
        (if c = 'a' then '1' else 'A') = some b1 ∧
      cellAt b1 x y = some c0 ∧
      setCell b1 x y (if c0 = '1' then 'a' else '.') = some b2 ∧
      s2 = { s with gameBoard := b2 }) := by
  unfold Sokoban.pushBox at h
  dsimp only at h
  cases hv : s.isValidMove (x + (directionOffset d).1) (y + (directionOffset d).2) with
  | none =>
    rw [hv] at h
    cases h
  | some v =>
    rw [hv] at h
    cases v with
    | false =>
      dsimp only at h
      cases h
      exact Or.inl ⟨rfl, rfl, Or.inl rfl⟩
    | true =>
      dsimp only at h
      cases hc : cellAt s.gameBoard (x + (directionOffset d).1) (y + (directionOffset d).2) with
      | none =>
        rw [hc] at h
        cases h
      | some c =>
        rw [hc] at h
        dsimp only at h
        by_cases hcr : c ≠ 'A' ∧ c ≠ '1'
        · rw [if_pos hcr] at h
          cases hb1 : setCell s.gameBoard (x + (directionOffset d).1)
              (y + (directionOffset d).2) (if c = 'a' then '1' else 'A') with
          | none =>
            rw [hb1] at h
            cases h
          | some b1 =>
            rw [hb1] at h
            dsimp only at h
            cases hc0 : cellAt b1 x y with
            | none =>
              rw [hc0] at h
              cases h
            | some c0 =>
              rw [hc0] at h
              dsimp only at h
              cases hb2 : setCell b1 x y (if c0 = '1' then 'a' else '.') with
              | none =>
                rw [hb2] at h
                cases h
              | some b2 =>
                rw [hb2] at h
                cases h
                exact Or.inr ⟨rfl, c, c0, b1, b2, rfl, rfl, hcr.1, hcr.2, hb1, hc0, hb2, rfl⟩
        · rw [if_neg hcr] at h
          cases h
          rcases not_and_or.1 hcr with hA | h1
          · exact Or.inl ⟨rfl, rfl, Or.inr (Or.inl (by rw [not_not.1 hA]))⟩
          · exact Or.inl ⟨rfl, rfl, Or.inr (Or.inr (by rw [not_not.1 h1]))⟩

theorem pushBox_isSome {s : Sokoban} {x y : Int} {c0 : Char} (d : Direction)
    (hr : Rectangular s.boardWidth s.boardHeight s.gameBoard)
    (hc0 : cellAt s.gameBoard x y = some c0) :
    ∃ r, s.pushBox x y d = some r := by
  unfold Sokoban.pushBox
  dsimp only
  obtain ⟨v, hv⟩ := isValidMove_isSome (x + (directionOffset d).1)
    (y + (directionOffset d).2) hr
  rw [hv]
  cases v with
  | false => exact ⟨_, rfl⟩
  | true =>
    dsimp only
    obtain ⟨-, c, hc, -⟩ := isValidMove_eq_true.1 hv
    rw [hc]
    dsimp only
    by_cases hcr : c ≠ 'A' ∧ c ≠ '1'
    · rw [if_pos hcr]
      obtain ⟨b1, hb1⟩ := setCell_isSome (if c = 'a' then '1' else 'A') hc
      rw [hb1]
      dsimp only
      have hne : ¬(x = x + (directionOffset d).1 ∧ y = y + (directionOffset d).2) := by
        have := directionOffset_ne_zero d
        omega
      have hc1 : cellAt b1 x y = some c0 := by
        rw [cellAt_setCell_of_ne hb1 x y hne, hc0]
      rw [hc1]
      dsimp only
      obtain ⟨b2, hb2⟩ := setCell_isSome (if c0 = '1' then 'a' else '.') hc1
      rw [hb2]
      exact ⟨_, rfl⟩
    · rw [if_neg hcr]
      exact ⟨_, rfl⟩

/-! ## `movePlayer` -/

theorem isValidMove_saveState (s : Sokoban) (x y : Int) :
    s.saveState.isValidMove x y = s.isValidMove x y := rfl

theorem movePlayer_isSome {s : Sokoban} (d : Direction)
    (hr : Rectangular s.boardWidth s.boardHeight s.gameBoard) :
    ∃ s1, s.movePlayer d = some s1 := by
  unfold Sokoban.movePlayer
  by_cases hw : s.gameWon = true
  · rw [if_pos hw]
    exact ⟨_, rfl⟩
  · rw [if_neg hw]
    dsimp only
    obtain ⟨v, hv⟩ := isValidMove_isSome (s.playerPosition.x + (directionOffset d).1)
      (s.playerPosition.y + (directionOffset d).2) hr
    rw [hv]
    cases v with
    | false => exact ⟨_, rfl⟩
    | true =>
      dsimp only
      obtain ⟨-, c, hc, -⟩ := isValidMove_eq_true.1 hv
      have hc1 : cellAt s.saveState.gameBoard (s.playerPosition.x + (directionOffset d).1)
          (s.playerPosition.y + (directionOffset d).2) = some c := hc
      rw [hc1]
      dsimp only
      by_cases hcr : c = 'A' ∨ c = '1'
      · rw [if_pos hcr]
        have hr1 : Rectangular s.saveState.boardWidth s.saveState.boardHeight
            s.saveState.gameBoard := hr
        obtain ⟨r, hpush⟩ := pushBox_isSome d hr1 hc1
        rw [hpush]
        obtain ⟨b, s2⟩ := r
        cases b with
        | false => exact ⟨_, rfl⟩
        | true => exact ⟨_, rfl⟩
      · rw [if_neg hcr]
        exact ⟨_, rfl⟩

theorem movePlayer_cases {s s1 : Sokoban} {d : Direction} (h : s.movePlayer d = some s1) :
    (s1 = s ∧ (s.gameWon = true ∨
      s.isValidMove (s.playerPosition.x + (directionOffset d).1)
        (s.playerPosition.y + (directionOffset d).2) = some false)) ∨
    (s.gameWon = false ∧
      s.isValidMove (s.playerPosition.x + (directionOffset d).1)
        (s.playerPosition.y + (directionOffset d).2) = some true ∧
      ((∃ c, cellAt s.gameBoard (s.playerPosition.x + (directionOffset d).1)
            (s.playerPosition.y + (directionOffset d).2) = some c ∧ c ≠ 'A' ∧ c ≠ '1' ∧
          s1 = Sokoban.checkWinCondition
            { s.saveState with
              playerPosition := ⟨s.playerPosition.x + (directionOffset d).1,
                s.playerPosition.y + (directionOffset d).2⟩
              moveCount := s.moveCount + 1
              lastDirection := d }) ∨
        (∃ c0, cellAt s.gameBoard (s.playerPosition.x + (directionOffset d).1)
            (s.playerPosition.y + (directionOffset d).2) = some c0 ∧ (c0 = 'A' ∨ c0 = '1') ∧
          (s.isValidMove (s.playerPosition.x + (directionOffset d).1 + (directionOffset d).1)
              (s.playerPosition.y + (directionOffset d).2 + (directionOffset d).2) = some false ∨
            cellAt s.gameBoard (s.playerPosition.x + (directionOffset d).1 + (directionOffset d).1)
              (s.playerPosition.y + (directionOffset d).2 + (directionOffset d).2) = some 'A' ∨
            cellAt s.gameBoard (s.playerPosition.x + (directionOffset d).1 + (directionOffset d).1)
              (s.playerPosition.y + (directionOffset d).2 + (directionOffset d).2) = some '1') ∧
          s1 = Sokoban.checkWinCondition { s.saveState with lastDirection := d }) ∨
        (∃ c0 c b1 b2,
          cellAt s.gameBoard (s.playerPosition.x + (directionOffset d).1)
            (s.playerPosition.y + (directionOffset d).2) = some c0 ∧ (c0 = 'A' ∨ c0 = '1') ∧
          s.isValidMove (s.playerPosition.x + (directionOffset d).1 + (directionOffset d).1)
            (s.playerPosition.y + (directionOffset d).2 + (directionOffset d).2) = some true ∧
          cellAt s.gameBoard (s.playerPosition.x + (directionOffset d).1 + (directionOffset d).1)
            (s.playerPosition.y + (directionOffset d).2 + (directionOffset d).2) = some c ∧
          c ≠ 'A' ∧ c ≠ '1' ∧
          setCell s.gameBoard (s.playerPosition.x + (directionOffset d).1 + (directionOffset d).1)
            (s.playerPosition.y + (directionOffset d).2 + (directionOffset d).2)
            (if c = 'a' then '1' else 'A') = some b1 ∧
          setCell b1 (s.playerPosition.x + (directionOffset d).1)
            (s.playerPosition.y + (directionOffset d).2)
            (if c0 = '1' then 'a' else '.') = some b2 ∧
          s1 = Sokoban.checkWinCondition
            { s.saveState with
              gameBoard := b2
              playerPosition := ⟨s.playerPosition.x + (directionOffset d).1,
                s.playerPosition.y + (directionOffset d).2⟩
              moveCount := s.moveCount + 1
              lastDirection := d }))) := by
  unfold Sokoban.movePlayer at h
  by_cases hw : s.gameWon = true
  · rw [if_pos hw] at h
    cases h
    exact Or.inl ⟨rfl, Or.inl hw⟩
  · rw [if_neg hw] at h
    dsimp only at h
    have hw1 : s.gameWon = false := by simpa using hw
    cases hv : s.isValidMove (s.playerPosition.x + (directionOffset d).1)
        (s.playerPosition.y + (directionOffset d).2) with
    | none =>
      rw [hv] at h
      cases h
    | some v =>
      rw [hv] at h
      cases v with
      | false =>
        dsimp only at h
        cases h
        exact Or.inl ⟨rfl, Or.inr rfl⟩
      | true =>
        dsimp only at h
        refine Or.inr ⟨hw1, rfl, ?_⟩
        obtain ⟨-, c, hc, -⟩ := isValidMove_eq_true.1 hv
        have hc1 : cellAt s.saveState.gameBoard (s.playerPosition.x + (directionOffset d).1)
            (s.playerPosition.y + (directionOffset d).2) = some c := hc
        rw [hc1] at h
        dsimp only at h
        by_cases hcr : c = 'A' ∨ c = '1'
        · rw [if_pos hcr] at h
          cases hp : s.saveState.pushBox (s.playerPosition.x + (directionOffset d).1)
              (s.playerPosition.y + (directionOffset d).2) d with
          | none =>
            rw [hp] at h
            cases h
          | some r =>
            obtain ⟨b, s2⟩ := r
            rw [hp] at h
            rcases pushBox_cases hp with ⟨hb, hs2, hblk⟩ | ⟨hb, c1, c0, b1, b2, hv2, hc2, hA, h1,
              hb1, hc0, hb2, hs2⟩
            · subst hb
              subst hs2
              dsimp only at h
              cases h
              exact Or.inr (Or.inl ⟨c, hc, hcr, hblk, rfl⟩)
            · subst hb
              subst hs2
              dsimp only at h
              cases h
              have hne : ¬(s.playerPosition.x + (directionOffset d).1 =
                    s.playerPosition.x + (directionOffset d).1 + (directionOffset d).1 ∧
                  s.playerPosition.y + (directionOffset d).2 =
                    s.playerPosition.y + (directionOffset d).2 + (directionOffset d).2) := by
                have := directionOffset_ne_zero d
                omega
              have hc3 : cellAt b1 (s.playerPosition.x + (directionOffset d).1)
                  (s.playerPosition.y + (directionOffset d).2) = some c := by
                rw [cellAt_setCell_of_ne hb1 _ _ hne]
                exact hc
              rw [hc3] at hc0
              cases hc0
              exact Or.inr (Or.inr ⟨c, c1, b1, b2, hc, hcr, hv2, hc2, hA, h1, hb1, hb2, rfl⟩)
        · rw [if_neg hcr] at h
          cases h
          exact Or.inl ⟨c, hc, fun hA => hcr (Or.inl hA), fun h1 => hcr (Or.inr h1), rfl⟩

/-! ## Fields left alone by `checkWinCondition`, and the history operations -/

theorem checkWinCondition_frame (s : Sokoban) :
    (Sokoban.checkWinCondition s).boardWidth = s.boardWidth ∧
    (Sokoban.checkWinCondition s).boardHeight = s.boardHeight ∧
    (Sokoban.checkWinCondition s).playerPosition = s.playerPosition ∧
    (Sokoban.checkWinCondition s).initialPlayerPosition = s.initialPlayerPosition ∧
    (Sokoban.checkWinCondition s).gameBoard = s.gameBoard ∧
    (Sokoban.checkWinCondition s).initialGameBoard = s.initialGameBoard ∧
    (Sokoban.checkWinCondition s).moveCount = s.moveCount ∧
    (Sokoban.checkWinCondition s).lastDirection = s.lastDirection ∧
    (Sokoban.checkWinCondition s).undoStack = s.undoStack ∧
    (Sokoban.checkWinCondition s).redoStack = s.redoStack := by
  unfold Sokoban.checkWinCondition
  split
  · simp
  · split <;> simp

theorem checkWinCondition_gameWon (s : Sokoban) :
    (Sokoban.checkWinCondition s).gameWon = !Sokoban.hasBareCrate s.gameBoard := by
  unfold Sokoban.checkWinCondition
  split
  · next h => simp [h]
  · next h =>
    split <;> simp [h]

theorem everywhere_checkWinCondition {P : Vector2i → Board → Prop} {s : Sokoban}
    (h : s.Everywhere P) : (Sokoban.checkWinCondition s).Everywhere P := by
  obtain ⟨-, -, hp, hip, hb, hib, -, -, hu, hr⟩ := checkWinCondition_frame s
  unfold Sokoban.Everywhere
  rw [hp, hip, hb, hib, hu, hr]
  exact h

theorem everywhere_undo {P : Vector2i → Board → Prop} {s : Sokoban}
    (h : s.Everywhere P) : s.undo.Everywhere P := by
  unfold Sokoban.undo
  cases hl : s.undoStack.getLast? with
  | none => exact h
  | some g =>
    obtain ⟨h1, h2, h3, h4⟩ := h
    have hg := h3 g (List.mem_of_getLast?_eq_some hl)
    refine ⟨hg, h2, ?_, ?_⟩
    · intro g1 hg1
      exact h3 g1 (List.dropLast_subset _ hg1)
    · intro g1 hg1
      rcases List.mem_append.1 hg1 with hin | hin
      · exact h4 g1 hin
      · rw [List.mem_singleton] at hin
        subst hin
        exact h1

theorem everywhere_redo {P : Vector2i → Board → Prop} {s : Sokoban}
    (h : s.Everywhere P) : s.redo.Everywhere P := by
  unfold Sokoban.redo
  cases hl : s.redoStack.getLast? with
  | none => exact h
  | some g =>
    obtain ⟨h1, h2, h3, h4⟩ := h
    have hg := h4 g (List.mem_of_getLast?_eq_some hl)
    apply everywhere_checkWinCondition
    refine ⟨hg, h2, ?_, ?_⟩
    · intro g1 hg1
      rcases List.mem_append.1 hg1 with hin | hin
      · exact h3 g1 hin
      · rw [List.mem_singleton] at hin
        subst hin
        exact h1
    · intro g1 hg1
      exact h4 g1 (List.dropLast_subset _ hg1)

theorem everywhere_reset {P : Vector2i → Board → Prop} {s : Sokoban}
    (h : s.Everywhere P) : s.reset.Everywhere P := by
  obtain ⟨-, h2, -, -⟩ := h
  refine ⟨h2, h2, ?_, ?_⟩
  · intro g hg
    cases hg
  · intro g hg
    cases hg

theorem undo_dims (s : Sokoban) :
    s.undo.boardWidth = s.boardWidth ∧ s.undo.boardHeight = s.boardHeight := by
  unfold Sokoban.undo
  cases s.undoStack.getLast? <;> exact ⟨rfl, rfl⟩

theorem redo_dims (s : Sokoban) :
    s.redo.boardWidth = s.boardWidth ∧ s.redo.boardHeight = s.boardHeight := by
  unfold Sokoban.redo
  cases s.redoStack.getLast? with
  | none => exact ⟨rfl, rfl⟩
  | some g =>
    obtain ⟨hw, hh, -⟩ := checkWinCondition_frame
      { s with
        undoStack := s.undoStack ++ [⟨s.playerPosition, s.gameBoard, s.moveCount⟩]
        redoStack := s.redoStack.dropLast
        playerPosition := g.playerPosition
        gameBoard := g.gameBoard
        moveCount := g.moveCount }
    exact ⟨hw, hh⟩

theorem movePlayer_frame {s s1 : Sokoban} {d : Direction} (h : s.movePlayer d = some s1) :
    s1.boardWidth = s.boardWidth ∧ s1.boardHeight = s.boardHeight ∧
    s1.initialPlayerPosition = s.initialPlayerPosition ∧
    s1.initialGameBoard = s.initialGameBoard ∧
    (s1.undoStack = s.undoStack ∨
      s1.undoStack = s.undoStack ++ [⟨s.playerPosition, s.gameBoard, s.moveCount⟩]) ∧
    (s1.redoStack = s.redoStack ∨ s1.redoStack = []) := by
  rcases movePlayer_cases h with ⟨rfl, -⟩ | ⟨-, -, hc | hc | hc⟩
  · exact ⟨rfl, rfl, rfl, rfl, Or.inl rfl, Or.inl rfl⟩
  · obtain ⟨c, -, -, -, rfl⟩ := hc
    obtain ⟨hw, hh, -, hip, -, hib, -, -, hu, hr⟩ := checkWinCondition_frame
      { s.saveState with
        playerPosition := ⟨s.playerPosition.x + (directionOffset d).1,
          s.playerPosition.y + (directionOffset d).2⟩
        moveCount := s.moveCount + 1
        lastDirection := d }
    exact ⟨hw, hh, hip, hib, Or.inr hu, Or.inr hr⟩
  · obtain ⟨c, -, -, -, rfl⟩ := hc
    obtain ⟨hw, hh, -, hip, -, hib, -, -, hu, hr⟩ := checkWinCondition_frame
      { s.saveState with lastDirection := d }
    exact ⟨hw, hh, hip, hib, Or.inr hu, Or.inr hr⟩
  · obtain ⟨c0, c, b1, b2, -, -, -, -, -, -, -, -, rfl⟩ := hc
    obtain ⟨hw, hh, -, hip, -, hib, -, -, hu, hr⟩ := checkWinCondition_frame
      { s.saveState with
        gameBoard := b2
        playerPosition := ⟨s.playerPosition.x + (directionOffset d).1,
          s.playerPosition.y + (directionOffset d).2⟩
        moveCount := s.moveCount + 1
        lastDirection := d }
    exact ⟨hw, hh, hip, hib, Or.inr hu, Or.inr hr⟩

theorem everywhere_movePlayer {P : Vector2i → Board → Prop} {s s1 : Sokoban} {d : Direction}
    (h : s.Everywhere P) (hm : s.movePlayer d = some s1)
    (hlive : P s1.playerPosition s1.gameBoard) : s1.Everywhere P := by
  obtain ⟨-, -, hip, hib, hu, hr⟩ := movePlayer_frame hm
  obtain ⟨h1, h2, h3, h4⟩ := h
  refine ⟨hlive, ?_, ?_, ?_⟩
  · rw [hip, hib]
    exact h2
  · intro g hg
    rcases hu with hu | hu
    · rw [hu] at hg
      exact h3 g hg
    · rw [hu] at hg
      rcases List.mem_append.1 hg with hin | hin
      · exact h3 g hin
      · rw [List.mem_singleton] at hin
        subst hin
        exact h1
  · intro g hg
    rcases hr with hr | hr
    · rw [hr] at hg
      exact h4 g hg
    · rw [hr] at hg
      cases hg

/-- A property of position/board pairs that implies a rectangular board and that every
`movePlayer` preserves on the live pair holds everywhere after any run of commands, and the
run never indexes outside the board. -/
theorem run_everywhere {P : Vector2i → Board → Prop} {w h : Int}
    (hrect : ∀ p b, P p b → Rectangular w h b)
    (hstep : ∀ (s s1 : Sokoban) (d : Direction), s.boardWidth = w → s.boardHeight = h →
      P s.playerPosition s.gameBoard → s.movePlayer d = some s1 →
      P s1.playerPosition s1.gameBoard)
    (cs : List Command) :
    ∀ s : Sokoban, s.boardWidth = w → s.boardHeight = h → s.Everywhere P →
      ∃ s1, s.run cs = some s1 ∧ s1.boardWidth = w ∧ s1.boardHeight = h ∧
        s1.Everywhere P := by
  induction cs with
  | nil =>
    intro s hw hh he
    exact ⟨s, rfl, hw, hh, he⟩
  | cons c cs ih =>
    intro s hw hh he
    cases c with
    | move d =>
      have hr : Rectangular s.boardWidth s.boardHeight s.gameBoard := by
        rw [hw, hh]
        exact hrect _ _ he.1
      obtain ⟨s1, hm⟩ := movePlayer_isSome d hr
      obtain ⟨hw1, hh1, -⟩ := movePlayer_frame hm
      have he1 := everywhere_movePlayer he hm (hstep s s1 d hw hh he.1 hm)
      obtain ⟨s2, hrun, h2⟩ := ih s1 (hw1.trans hw) (hh1.trans hh) he1
      refine ⟨s2, ?_, h2⟩
      simp only [Sokoban.run, Sokoban.exec, hm]
      exact hrun
    | undo =>
      obtain ⟨s2, hrun, h2⟩ := ih s.undo ((undo_dims s).1.trans hw) ((undo_dims s).2.trans hh)
        (everywhere_undo he)
      exact ⟨s2, by simpa only [Sokoban.run, Sokoban.exec] using hrun, h2⟩
    | redo =>
      obtain ⟨s2, hrun, h2⟩ := ih s.redo ((redo_dims s).1.trans hw) ((redo_dims s).2.trans hh)
        (everywhere_redo he)
      exact ⟨s2, by simpa only [Sokoban.run, Sokoban.exec] using hrun, h2⟩
    | reset =>
      obtain ⟨s2, hrun, h2⟩ := ih s.reset hw hh (everywhere_reset he)
      exact ⟨s2, by simpa only [Sokoban.run, Sokoban.exec] using hrun, h2⟩

/-! ## Crate conservation and bounds safety -/

theorem movePlayer_crateCount {s s1 : Sokoban} {d : Direction}
    (h : s.movePlayer d = some s1) : crateCount s1.gameBoard = crateCount s.gameBoard := by
  rcases movePlayer_cases h with ⟨rfl, -⟩ | ⟨-, -, hc | hc | hc⟩
  · rfl
  · obtain ⟨c, -, -, -, rfl⟩ := hc
    rw [(checkWinCondition_frame _).2.2.2.2.1]
    rfl
  · obtain ⟨c, -, -, -, rfl⟩ := hc
    rw [(checkWinCondition_frame _).2.2.2.2.1]
    rfl
  · obtain ⟨c0, c, b1, b2, hc0, hcr, -, hc, hA, h1, hb1, hb2, rfl⟩ := hc
    rw [(checkWinCondition_frame _).2.2.2.2.1]
    show crateCount b2 = crateCount s.gameBoard
    have hne : ¬(s.playerPosition.x + (directionOffset d).1 =
          s.playerPosition.x + (directionOffset d).1 + (directionOffset d).1 ∧
        s.playerPosition.y + (directionOffset d).2 =
          s.playerPosition.y + (directionOffset d).2 + (directionOffset d).2) := by
      have := directionOffset_ne_zero d
      omega
    have hc3 : cellAt b1 (s.playerPosition.x + (directionOffset d).1)
        (s.playerPosition.y + (directionOffset d).2) = some c0 := by
      rw [cellAt_setCell_of_ne hb1 _ _ hne]
      exact hc0
    have e1 := crateCount_setCell hb1 hc
    have e2 := crateCount_setCell hb2 hc3
    have k1 : isCrate c = false := by simp [isCrate, hA, h1]
    have k2 : isCrate (if c = 'a' then '1' else 'A') = true := by
      split <;> decide
    have k3 : isCrate c0 = true := by
      rcases hcr with rfl | rfl <;> decide
    have k4 : isCrate (if c0 = '1' then 'a' else '.') = false := by
      split <;> decide
    rw [k1, k2] at e1
    rw [k3, k4] at e2
    simp only [if_true, Bool.false_eq_true, if_false] at e1 e2
    omega

theorem movePlayer_rectangular {s s1 : Sokoban} {d : Direction} {w h : Int}
    (hm : s.movePlayer d = some s1) (hr : Rectangular w h s.gameBoard) :
    Rectangular w h s1.gameBoard := by
  rcases movePlayer_cases hm with ⟨rfl, -⟩ | ⟨-, -, hc | hc | hc⟩
  · exact hr
  · obtain ⟨c, -, -, -, rfl⟩ := hc
    rw [(checkWinCondition_frame _).2.2.2.2.1]
    exact hr
  · obtain ⟨c, -, -, -, rfl⟩ := hc
    rw [(checkWinCondition_frame _).2.2.2.2.1]
    exact hr
  · obtain ⟨c0, c, b1, b2, -, -, -, -, -, -, hb1, hb2, rfl⟩ := hc
    rw [(checkWinCondition_frame _).2.2.2.2.1]
    exact rectangular_setCell hb2 (rectangular_setCell hb1 hr)

theorem movePlayer_inBounds {s s1 : Sokoban} {d : Direction}
    (hm : s.movePlayer d = some s1)
    (hp : InBounds s.boardWidth s.boardHeight s.playerPosition) :
    InBounds s.boardWidth s.boardHeight s1.playerPosition := by
  rcases movePlayer_cases hm with ⟨rfl, -⟩ | ⟨-, hv, hc | hc | hc⟩
  · exact hp
  · obtain ⟨c, -, -, -, rfl⟩ := hc
    rw [(checkWinCondition_frame _).2.2.1]
    exact (isValidMove_eq_true.1 hv).1
  · obtain ⟨c, -, -, -, rfl⟩ := hc
    rw [(checkWinCondition_frame _).2.2.1]
    exact hp
  · obtain ⟨c0, c, b1, b2, -, -, -, -, -, -, -, -, rfl⟩ := hc
    rw [(checkWinCondition_frame _).2.2.1]
    exact (isValidMove_eq_true.1 hv).1

theorem load_everywhere {P : Vector2i → Board → Prop} (lv : Level)
    (h : P lv.playerPosition lv.gameBoard) : (Sokoban.load (some lv)).Everywhere P := by
  refine ⟨h, h, ?_, ?_⟩
  · intro g hg
    cases hg
  · intro g hg
    cases hg

/-- C1 (crate conservation).  From an engine loaded with a rectangular board, every sequence of
`movePlayer` / `undo` / `redo` / `reset` commands runs without indexing outside the board and
ends in a state whose board holds as many crate cells (`'A'` or `'1'`) as the loaded board.
Moreover, on any engine with a rectangular board a single `movePlayer` returns and leaves the
number of crate cells unchanged. -/
theorem crate_conservation (lv : Level)
    (hr : Rectangular lv.boardWidth lv.boardHeight lv.gameBoard) (cs : List Command) :
    (∃ s, (Sokoban.load (some lv)).run cs = some s ∧
        crateCount s.gameBoard = crateCount lv.gameBoard) ∧
      ∀ (t : Sokoban) (d : Direction),
        Rectangular t.boardWidth t.boardHeight t.gameBoard →
        ∃ t1, t.movePlayer d = some t1 ∧ crateCount t1.gameBoard = crateCount t.gameBoard := by
  constructor
  · obtain ⟨s, hrun, -, -, he⟩ := run_everywhere
      (P := fun _ b => Rectangular lv.boardWidth lv.boardHeight b ∧
        crateCount b = crateCount lv.gameBoard)
      (fun _ _ hP => hP.1)
      (fun s s1 d _ _ hP hm => ⟨movePlayer_rectangular hm hP.1,
        (movePlayer_crateCount hm).trans hP.2⟩)
      cs (Sokoban.load (some lv)) rfl rfl (load_everywhere lv ⟨hr, rfl⟩)
    exact ⟨s, hrun, he.1.2⟩
  · intro t d ht
    obtain ⟨t1, hm⟩ := movePlayer_isSome d ht
    exact ⟨t1, hm, movePlayer_crateCount hm⟩

/-- C2 (bounds safety).  From an engine loaded with a rectangular board and a start position on
the board, every sequence of `movePlayer` / `undo` / `redo` / `reset` commands runs and ends
in a state with the loaded dimensions and `0 ≤ x < width`, `0 ≤ y < height` for the player. -/
theorem bounds_safety (lv : Level)
    (hr : Rectangular lv.boardWidth lv.boardHeight lv.gameBoard)
    (hstart : InBounds lv.boardWidth lv.boardHeight lv.playerPosition) (cs : List Command) :
    ∃ s, (Sokoban.load (some lv)).run cs = some s ∧
      s.boardWidth = lv.boardWidth ∧ s.boardHeight = lv.boardHeight ∧
      0 ≤ s.playerLoc.x ∧ s.playerLoc.x < s.boardWidth ∧
      0 ≤ s.playerLoc.y ∧ s.playerLoc.y < s.boardHeight := by
  obtain ⟨s, hrun, hw, hh, he⟩ := run_everywhere
    (P := fun p b => Rectangular lv.boardWidth lv.boardHeight b ∧
      InBounds lv.boardWidth lv.boardHeight p)
    (fun _ _ hP => hP.1)
    (fun s s1 d hw hh hP hm => ⟨movePlayer_rectangular hm hP.1, by
      have := movePlayer_inBounds hm (by rw [hw, hh]; exact hP.2)
      rw [hw, hh] at this
      exact this⟩)
    cs (Sokoban.load (some lv)) rfl rfl (load_everywhere lv ⟨hr, hstart⟩)
  refine ⟨s, hrun, hw, hh, ?_⟩
  have hb := he.1.2
  rw [hw, hh]
  exact hb

theorem crate_conservation_witness :
    Rectangular yardLevel.boardWidth yardLevel.boardHeight yardLevel.gameBoard ∧
      (∃ s, (Sokoban.load (some yardLevel)).run
          [Command.move Direction.Right, Command.move Direction.Right, Command.undo,
            Command.redo, Command.reset, Command.move Direction.Down] = some s ∧
        crateCount s.gameBoard = crateCount yardLevel.gameBoard) ∧
      ∃ t1, (Sokoban.load (some yardLevel)).movePlayer Direction.Right = some t1 ∧
        crateCount t1.gameBoard = crateCount (Sokoban.load (some yardLevel)).gameBoard :=
  ⟨by decide,
    (crate_conservation yardLevel (by decide)
      [Command.move Direction.Right, Command.move Direction.Right, Command.undo,
        Command.redo, Command.reset, Command.move Direction.Down]).1,
    (crate_conservation yardLevel (by decide) []).2 (Sokoban.load (some yardLevel))
      Direction.Right (by decide)⟩

theorem bounds_safety_witness :
    Rectangular yardLevel.boardWidth yardLevel.boardHeight yardLevel.gameBoard ∧
      InBounds yardLevel.boardWidth yardLevel.boardHeight yardLevel.playerPosition ∧
      ∃ s, (Sokoban.load (some yardLevel)).run
          [Command.move Direction.Left, Command.move Direction.Left, Command.move Direction.Left,
            Command.undo, Command.move Direction.Up] = some s ∧
        s.boardWidth = yardLevel.boardWidth ∧ s.boardHeight = yardLevel.boardHeight ∧
        0 ≤ s.playerLoc.x ∧ s.playerLoc.x < s.boardWidth ∧
        0 ≤ s.playerLoc.y ∧ s.playerLoc.y < s.boardHeight :=
  ⟨by decide, by decide,
    bounds_safety yardLevel (by decide) (by decide)
      [Command.move Direction.Left, Command.move Direction.Left, Command.move Direction.Left,
        Command.undo, Command.move Direction.Up]⟩

/-! ## Accepted moves, pushes and win detection -/

theorem isValidMove_of_accepts {s : Sokoban} {d : Direction}
    (hr : Rectangular s.boardWidth s.boardHeight s.gameBoard) (ha : s.Accepts d) :
    s.isValidMove (s.playerPosition.x + (directionOffset d).1)
      (s.playerPosition.y + (directionOffset d).2) = some true := by
  obtain ⟨-, hb, hwall⟩ := ha
  obtain ⟨c, hc⟩ := cellAt_isSome hr hb.1 hb.2.1 hb.2.2.1 hb.2.2.2
  refine isValidMove_eq_true.2 ⟨hb, c, hc, ?_⟩
  rintro rfl
  exact hwall hc

theorem hasBareCrate_iff (board : Board) :
    Sokoban.hasBareCrate board = true ↔ ∃ x y, cellAt board x y = some 'A' := by
  unfold Sokoban.hasBareCrate
  simp only [List.any_eq_true, beq_iff_eq]
  constructor
  · rintro ⟨row, hrow, c, hc, rfl⟩
    obtain ⟨j, hj⟩ := List.mem_iff_getElem?.1 hrow
    obtain ⟨i, hi⟩ := List.mem_iff_getElem?.1 hc
    refine ⟨(i : Int), (j : Int), cellAt_eq_some.2 ⟨by omega, by omega, row, ?_, ?_⟩⟩
    · simpa using hj
    · simpa using hi
  · rintro ⟨x, y, h⟩
    obtain ⟨-, -, row, hrow, hc⟩ := cellAt_eq_some.1 h
    exact ⟨row, List.mem_iff_getElem?.2 ⟨_, hrow⟩, 'A', List.mem_iff_getElem?.2 ⟨_, hc⟩, rfl⟩

theorem checkWinCondition_isWon_iff (s : Sokoban) :
    (Sokoban.checkWinCondition s).isWon = true ↔
      ∀ x y, cellAt (Sokoban.checkWinCondition s).gameBoard x y ≠ some 'A' := by
  unfold Sokoban.isWon
  rw [checkWinCondition_gameWon, (checkWinCondition_frame s).2.2.2.2.1]
  have h := hasBareCrate_iff s.gameBoard
  cases hb : Sokoban.hasBareCrate s.gameBoard with
  | false =>
    rw [hb] at h
    simp only [Bool.not_false, true_iff]
    intro x y hxy
    have := h.2 ⟨x, y, hxy⟩
    cases this
  | true =>
    rw [hb] at h
    simp only [Bool.not_true, Bool.false_eq_true, false_iff, not_forall, not_not]
    exact h.1 rfl

theorem movePlayer_accepted {s : Sokoban} {d : Direction}
    (hr : Rectangular s.boardWidth s.boardHeight s.gameBoard) (ha : s.Accepts d) :
    ∃ p b m, s.movePlayer d = some (Sokoban.checkWinCondition
      { s.saveState with playerPosition := p, gameBoard := b, moveCount := m,
                         lastDirection := d }) := by
  obtain ⟨s1, hm⟩ := movePlayer_isSome d hr
  have hv := isValidMove_of_accepts hr ha
  rcases movePlayer_cases hm with ⟨-, hw | hf⟩ | ⟨-, -, hc | hc | hc⟩
  · rw [ha.1] at hw
    cases hw
  · rw [hv] at hf
    cases hf
  · obtain ⟨c, -, -, -, rfl⟩ := hc
    exact ⟨_, _, _, hm⟩
  · obtain ⟨c, -, -, -, rfl⟩ := hc
    exact ⟨_, _, _, hm⟩
  · obtain ⟨c0, c, b1, b2, -, -, -, -, -, -, -, -, rfl⟩ := hc
    exact ⟨_, _, _, hm⟩

/-- C3 (successful push).  In a state that is not won, with a rectangular board, where the cell
next to the player in direction `d` holds a crate `c0` (`'A'` or `'1'`) and the cell beyond it
is on the board and holds `c`, neither a wall nor a crate: `movePlayer d` returns; the beyond
cell becomes `'1'` if it was the target `'a'` and `'A'` otherwise; the crate's cell becomes
`'a'` if it held `'1'` and `'.'` otherwise; every other cell is unchanged; the player stands on
the crate's former cell; and `moveCount` has grown by exactly one. -/
theorem push_postcondition (s : Sokoban) (d : Direction) (c0 c : Char)
    (hr : Rectangular s.boardWidth s.boardHeight s.gameBoard)
    (hw : s.gameWon = false)
    (hc0 : cellAt s.gameBoard (s.playerPosition.x + (directionOffset d).1)
      (s.playerPosition.y + (directionOffset d).2) = some c0)
    (hcrate : c0 = 'A' ∨ c0 = '1')
    (hc : cellAt s.gameBoard (s.playerPosition.x + (directionOffset d).1 + (directionOffset d).1)
      (s.playerPosition.y + (directionOffset d).2 + (directionOffset d).2) = some c)
    (hwall : c ≠ '#') (hA : c ≠ 'A') (h1 : c ≠ '1') :
    ∃ s1, s.movePlayer d = some s1 ∧
      cellAt s1.gameBoard (s.playerPosition.x + (directionOffset d).1 + (directionOffset d).1)
        (s.playerPosition.y + (directionOffset d).2 + (directionOffset d).2) =
          some (if c = 'a' then '1' else 'A') ∧
      cellAt s1.gameBoard (s.playerPosition.x + (directionOffset d).1)
        (s.playerPosition.y + (directionOffset d).2) = some (if c0 = '1' then 'a' else '.') ∧
      (∀ x y : Int,
        ¬(x = s.playerPosition.x + (directionOffset d).1 ∧
          y = s.playerPosition.y + (directionOffset d).2) →
        ¬(x = s.playerPosition.x + (directionOffset d).1 + (directionOffset d).1 ∧
          y = s.playerPosition.y + (directionOffset d).2 + (directionOffset d).2) →
        cellAt s1.gameBoard x y = cellAt s.gameBoard x y) ∧
      s1.playerLoc = ⟨s.playerPosition.x + (directionOffset d).1,
        s.playerPosition.y + (directionOffset d).2⟩ ∧
      s1.getMoveCount = s.getMoveCount + 1 := by
  obtain ⟨s1, hm⟩ := movePlayer_isSome d hr
  refine ⟨s1, hm, ?_⟩
  have hb0 := cellAt_bounds hr hc0
  have hb := cellAt_bounds hr hc
  rcases movePlayer_cases hm with ⟨-, hw1 | hf⟩ | ⟨-, -, hcase | hcase | hcase⟩
  · rw [hw] at hw1
    cases hw1
  · rcases isValidMove_eq_false.1 hf with hnb | ⟨-, hwl⟩
    · exact absurd hb0 hnb
    · rw [hc0] at hwl
      cases hwl
      rcases hcrate with hcr | hcr <;> cases hcr
  · obtain ⟨c1, hc1, hA1, h11, -⟩ := hcase
    rw [hc0] at hc1
    cases hc1
    rcases hcrate with hcr | hcr
    · exact absurd hcr hA1
    · exact absurd hcr h11
  · obtain ⟨c1, -, -, hblk, -⟩ := hcase
    rcases hblk with hf | hcA | hc1
    · rcases isValidMove_eq_false.1 hf with hnb | ⟨-, hwl⟩
      · exact absurd hb hnb
      · rw [hc] at hwl
        cases hwl
        exact absurd rfl hwall
    · rw [hc] at hcA
      cases hcA
      exact absurd rfl hA
    · rw [hc] at hc1
      cases hc1
      exact absurd rfl h1
  · obtain ⟨c0', c', b1, b2, hc0', -, -, hc', -, -, hb1, hb2, rfl⟩ := hcase
    rw [hc0] at hc0'
    cases hc0'
    rw [hc] at hc'
    cases hc'
    have hne : ¬(s.playerPosition.x + (directionOffset d).1 + (directionOffset d).1 =
          s.playerPosition.x + (directionOffset d).1 ∧
        s.playerPosition.y + (directionOffset d).2 + (directionOffset d).2 =
          s.playerPosition.y + (directionOffset d).2) := by
      have := directionOffset_ne_zero d
      omega
    unfold Sokoban.playerLoc Sokoban.getMoveCount
    rw [(checkWinCondition_frame _).2.2.2.2.1, (checkWinCondition_frame _).2.2.1,
      (checkWinCondition_frame _).2.2.2.2.2.2.1]
    refine ⟨?_, cellAt_setCell_self hb2, ?_, rfl, rfl⟩
    · show cellAt b2 _ _ = _
      rw [cellAt_setCell_of_ne hb2 _ _ hne]
      exact cellAt_setCell_self hb1
    · intro x y hn1 hn2
      show cellAt b2 x y = _
      rw [cellAt_setCell_of_ne hb2 x y hn1, cellAt_setCell_of_ne hb1 x y hn2]

theorem push_postcondition_witness :
    ∃ s1, (Sokoban.load (some yardLevel)).movePlayer Direction.Right = some s1 ∧
      cellAt s1.gameBoard 4 1 = some 'A' ∧ cellAt s1.gameBoard 3 1 = some '.' ∧
      (∀ x y : Int, ¬(x = 3 ∧ y = 1) → ¬(x = 4 ∧ y = 1) →
        cellAt s1.gameBoard x y = cellAt yardLevel.gameBoard x y) ∧
      s1.playerLoc = ⟨3, 1⟩ ∧ s1.getMoveCount = 1 :=
  push_postcondition (Sokoban.load (some yardLevel)) Direction.Right 'A' '.'
    (by decide) (by decide) (by decide) (by decide) (by decide) (by decide) (by decide)
    (by decide)

/-- C4 (win detection).  After an accepted `movePlayer` (state not won, target cell on the board
and not a wall; the board rectangular) the call returns and `isWon` holds exactly when no cell
of the resulting board is a bare crate `'A'`; the same equivalence holds after every `redo`
performed on a non-empty redo stack. -/
theorem win_detection (s : Sokoban) (d : Direction) :
    (Rectangular s.boardWidth s.boardHeight s.gameBoard → s.Accepts d →
      ∃ s1, s.movePlayer d = some s1 ∧
        (s1.isWon = true ↔ ∀ x y, cellAt s1.gameBoard x y ≠ some 'A')) ∧
    (s.redoStack ≠ [] →
      (s.redo.isWon = true ↔ ∀ x y, cellAt s.redo.gameBoard x y ≠ some 'A')) := by
  constructor
  · intro hr ha
    obtain ⟨p, b, m, hm⟩ := movePlayer_accepted hr ha
    exact ⟨_, hm, checkWinCondition_isWon_iff _⟩
  · intro hne
    unfold Sokoban.redo
    cases hl : s.redoStack.getLast? with
    | none => exact absurd (List.getLast?_eq_none_iff.1 hl) hne
    | some g => exact checkWinCondition_isWon_iff _

theorem win_detection_witness :
    (∃ s1, (Sokoban.load (some demoLevel)).movePlayer Direction.Right = some s1 ∧
        (s1.isWon = true ↔ ∀ x y, cellAt s1.gameBoard x y ≠ some 'A')) ∧
      (demoUndone.redo.isWon = true ↔
        ∀ x y, cellAt demoUndone.redo.gameBoard x y ≠ some 'A') :=
  ⟨(win_detection (Sokoban.load (some demoLevel)) Direction.Right).1 (by decide) (by decide),
    (win_detection demoUndone Direction.Right).2 (by decide)⟩

/-! ## Undo and redo after an accepted move -/

theorem undo_eq_of_getLast {s : Sokoban} {g : GameState}
    (h : s.undoStack.getLast? = some g) :
    s.undo =
      { s with
        redoStack := s.redoStack ++ [⟨s.playerPosition, s.gameBoard, s.moveCount⟩]
        undoStack := s.undoStack.dropLast
        playerPosition := g.playerPosition
        gameBoard := g.gameBoard
        moveCount := g.moveCount
        gameWon := false } := by
  unfold Sokoban.undo
  rw [h]

theorem redo_eq_of_getLast {s : Sokoban} {g : GameState}
    (h : s.redoStack.getLast? = some g) :
    s.redo =
      Sokoban.checkWinCondition
        { s with
          undoStack := s.undoStack ++ [⟨s.playerPosition, s.gameBoard, s.moveCount⟩]
          redoStack := s.redoStack.dropLast
          playerPosition := g.playerPosition
          gameBoard := g.gameBoard
          moveCount := g.moveCount } := by
  unfold Sokoban.redo
  rw [h]

theorem redo_eq_self {s : Sokoban} (h : s.redoStack = []) : s.redo = s := by
  unfold Sokoban.redo
  rw [h]
  rfl

/-- Re-running the win check on the outcome of a win check, with any value of the won flag in
between, gives the same outcome: the sound is not played a second time. -/
theorem checkWinCondition_again (t : Sokoban) (g : Bool) :
    Sokoban.checkWinCondition { Sokoban.checkWinCondition t with gameWon := g } =
      Sokoban.checkWinCondition t := by
  unfold Sokoban.checkWinCondition
  by_cases hb : Sokoban.hasBareCrate t.gameBoard = true
  · simp [hb]
  · by_cases hv : t.victorySoundPlayed = false
    · simp [hb, hv]
    · simp [hb, hv]

theorem undo_movePlayer_accepted (s : Sokoban) (d : Direction) (p : Vector2i) (b : Board)
    (m : Int) :
    (Sokoban.checkWinCondition
      { s.saveState with playerPosition := p, gameBoard := b, moveCount := m,
                         lastDirection := d }).undo =
      { Sokoban.checkWinCondition
          { s.saveState with playerPosition := p, gameBoard := b, moveCount := m,
                             lastDirection := d } with
        redoStack := [⟨p, b, m⟩]
        undoStack := s.undoStack
        playerPosition := s.playerPosition
        gameBoard := s.gameBoard
        moveCount := s.moveCount
        gameWon := false } := by
  obtain ⟨-, -, hp, -, hb, -, hm, -, hu, hr⟩ := checkWinCondition_frame
    { s.saveState with playerPosition := p, gameBoard := b, moveCount := m, lastDirection := d }
  have hl : (Sokoban.checkWinCondition
      { s.saveState with playerPosition := p, gameBoard := b, moveCount := m,
                         lastDirection := d }).undoStack.getLast? =
      some ⟨s.playerPosition, s.gameBoard, s.moveCount⟩ := by
    rw [hu]
    exact List.getLast?_concat _
  rw [undo_eq_of_getLast hl, hu, hr, hp, hb, hm]
  simp [Sokoban.saveState]

/-- C5 (undo inverse law).  For a state `s` with a rectangular board and a direction `d` whose
move is accepted (not won, target cell on the board and not a wall; a push may then succeed
or fail), `movePlayer d` returns and a following `undo` restores the player position, the
board and `moveCount` of `s` and leaves `undoStack` equal to that of `s`. -/
theorem undo_inverse (s : Sokoban) (d : Direction)
    (hr : Rectangular s.boardWidth s.boardHeight s.gameBoard) (ha : s.Accepts d) :
    ∃ s1, s.movePlayer d = some s1 ∧
      s1.undo.playerPosition = s.playerPosition ∧
      s1.undo.gameBoard = s.gameBoard ∧
      s1.undo.moveCount = s.moveCount ∧
      s1.undo.undoStack = s.undoStack := by
  obtain ⟨p, b, m, hm⟩ := movePlayer_accepted hr ha
  refine ⟨_, hm, ?_⟩
  rw [undo_movePlayer_accepted]
  exact ⟨rfl, rfl, rfl, rfl⟩

theorem undo_inverse_witness :
    ∃ s1, (Sokoban.load (some yardLevel)).movePlayer Direction.Right = some s1 ∧
      s1.undo.playerPosition = (Sokoban.load (some yardLevel)).playerPosition ∧
      s1.undo.gameBoard = (Sokoban.load (some yardLevel)).gameBoard ∧
      s1.undo.moveCount = (Sokoban.load (some yardLevel)).moveCount ∧
      s1.undo.undoStack = (Sokoban.load (some yardLevel)).undoStack :=
  undo_inverse (Sokoban.load (some yardLevel)) Direction.Right (by decide) (by decide)

theorem undo_redo_of_checked {m t : Sokoban} {U : List GameState} {g0 : GameState}
    (hm : m = Sokoban.checkWinCondition t) (hu : m.undoStack = U ++ [g0])
    (hr : m.redoStack = []) : m.undo.redo = m := by
  have key := checkWinCondition_again t false
  rw [← hm] at key
  cases m with
  | mk bw bh pp ipp gb igb gw mc vsp ld us rs vp =>
    simp only at hu hr
    subst hu hr
    simp only [Sokoban.undo, Sokoban.redo, List.getLast?_concat, List.dropLast_concat,
      List.nil_append, List.getLast?_singleton, List.dropLast_single]
    exact key

/-- C6 (redo inverse law).  For a state `s` with a rectangular board and a direction `d` whose
move is accepted, `movePlayer d` returns a state `s1` with an empty redo stack, and
`undo` followed by `redo` leads back to `s1` itself: every member of the engine, among them the
player position, board, `moveCount`, won flag and both stacks, is as right after the move. -/
theorem redo_inverse (s : Sokoban) (d : Direction)
    (hr : Rectangular s.boardWidth s.boardHeight s.gameBoard) (ha : s.Accepts d) :
    ∃ s1, s.movePlayer d = some s1 ∧ s1.redoStack = [] ∧ s1.undo.redo = s1 := by
  obtain ⟨p, b, m, hm⟩ := movePlayer_accepted hr ha
  obtain ⟨-, -, -, -, -, -, -, -, hu, hrd⟩ := checkWinCondition_frame
    { s.saveState with playerPosition := p, gameBoard := b, moveCount := m,
                       lastDirection := d }
  exact ⟨_, hm, hrd, undo_redo_of_checked rfl hu hrd⟩

theorem redo_inverse_witness :
    ∃ s1, (Sokoban.load (some demoLevel)).movePlayer Direction.Right = some s1 ∧
      s1.redoStack = [] ∧ s1.undo.redo = s1 :=
  redo_inverse (Sokoban.load (some demoLevel)) Direction.Right (by decide) (by decide)

/-! ## Rejected and frozen moves -/

theorem accepts_undo_iff {s s1 : Sokoban} {d : Direction} (d2 : Direction)
    (hr : Rectangular s.boardWidth s.boardHeight s.gameBoard) (ha : s.Accepts d)
    (hm : s.movePlayer d = some s1) :
    Rectangular s1.undo.boardWidth s1.undo.boardHeight s1.undo.gameBoard ∧
      (s.Accepts d2 → s1.undo.Accepts d2) ∧ s1.undo.redoStack ≠ [] := by
  obtain ⟨p, b, m, hm1⟩ := movePlayer_accepted hr ha
  rw [hm] at hm1
  cases hm1
  obtain ⟨hw, hh, -⟩ := checkWinCondition_frame
    { s.saveState with playerPosition := p, gameBoard := b, moveCount := m,
                       lastDirection := d }
  rw [undo_movePlayer_accepted]
  refine ⟨?_, ?_, ?_⟩
  · show Rectangular (Sokoban.checkWinCondition _).boardWidth
      (Sokoban.checkWinCondition _).boardHeight s.gameBoard
    rw [hw, hh]
    exact hr
  · intro ha2
    obtain ⟨-, hb, hwall⟩ := ha2
    refine ⟨rfl, ?_, hwall⟩
    show InBounds (Sokoban.checkWinCondition _).boardWidth
      (Sokoban.checkWinCondition _).boardHeight _
    rw [hw, hh]
    exact hb
  · intro hnil
    cases hnil

theorem movePlayer_accepted_redo {s : Sokoban} {d : Direction}
    (hr : Rectangular s.boardWidth s.boardHeight s.gameBoard) (ha : s.Accepts d) :
    ∃ s1, s.movePlayer d = some s1 ∧ s1.redoStack = [] ∧ s1.redo = s1 := by
  obtain ⟨p, b, m, hm⟩ := movePlayer_accepted hr ha
  have hrd := (checkWinCondition_frame
    { s.saveState with playerPosition := p, gameBoard := b, moveCount := m,
                       lastDirection := d }).2.2.2.2.2.2.2.2.2
  exact ⟨_, hm, hrd, redo_eq_self hrd⟩

/-- C7 (redo invalidation).  For a state `s` with a rectangular board, whatever its redo stack
holds, and a direction `d` whose move is accepted: `movePlayer d` returns a state `s1` with an
empty redo stack, on which `redo` changes nothing.  In particular, when `d2` is a direction
whose move is accepted in `s` (hence also after `movePlayer d; undo`, which restores position
and board), the state after `movePlayer d; undo` has a non-empty redo stack, `movePlayer d2`
returns from it with an empty redo stack, and `redo` changes nothing there. -/
theorem redo_invalidation (s : Sokoban) (d d2 : Direction)
    (hr : Rectangular s.boardWidth s.boardHeight s.gameBoard)
    (ha : s.Accepts d) (ha2 : s.Accepts d2) :
    ∃ s1, s.movePlayer d = some s1 ∧ s1.redoStack = [] ∧ s1.redo = s1 ∧
      s1.undo.redoStack ≠ [] ∧
      ∃ s2, s1.undo.movePlayer d2 = some s2 ∧ s2.redoStack = [] ∧ s2.redo = s2 := by
  obtain ⟨s1, hm, hrd, hredo⟩ := movePlayer_accepted_redo hr ha
  obtain ⟨hr1, hacc, hne⟩ := accepts_undo_iff d2 hr ha hm
  exact ⟨s1, hm, hrd, hredo, hne, movePlayer_accepted_redo hr1 (hacc ha2)⟩

theorem redo_invalidation_witness :
    blockedState.redoStack ≠ [] ∧
      ∃ s1, blockedState.movePlayer Direction.Left = some s1 ∧ s1.redoStack = [] ∧
        s1.redo = s1 ∧ s1.undo.redoStack ≠ [] ∧
        ∃ s2, s1.undo.movePlayer Direction.Right = some s2 ∧ s2.redoStack = [] ∧
          s2.redo = s2 :=
  ⟨by decide,
    redo_invalidation blockedState Direction.Left Direction.Right (by decide) (by decide)
      (by decide)⟩

/-- C8 (wall and out-of-bounds rejection).  If the cell next to the player in direction `d` is
outside the `boardWidth` by `boardHeight` board or holds a wall `'#'`, `movePlayer d` returns
the engine unchanged in every member.  In particular this is so for every engine with
`boardWidth = boardHeight = 0`, such as the one built when the level file cannot be opened. -/
theorem wall_rejection (s : Sokoban) (d : Direction) :
    ((¬InBounds s.boardWidth s.boardHeight
          ⟨s.playerPosition.x + (directionOffset d).1,
            s.playerPosition.y + (directionOffset d).2⟩ ∨
        cellAt s.gameBoard (s.playerPosition.x + (directionOffset d).1)
          (s.playerPosition.y + (directionOffset d).2) = some '#') →
      s.movePlayer d = some s) ∧
    (s.boardWidth = 0 ∧ s.boardHeight = 0 → s.movePlayer d = some s) ∧
    (Sokoban.load none).boardWidth = 0 ∧ (Sokoban.load none).boardHeight = 0 ∧
    (Sokoban.load none).movePlayer d = some (Sokoban.load none) := by
  have main : (¬InBounds s.boardWidth s.boardHeight
          ⟨s.playerPosition.x + (directionOffset d).1,
            s.playerPosition.y + (directionOffset d).2⟩ ∨
        cellAt s.gameBoard (s.playerPosition.x + (directionOffset d).1)
          (s.playerPosition.y + (directionOffset d).2) = some '#') →
      s.movePlayer d = some s := by
    intro h
    unfold Sokoban.movePlayer
    by_cases hw : s.gameWon = true
    · rw [if_pos hw]
    · rw [if_neg hw]
      dsimp only
      have hf : s.isValidMove (s.playerPosition.x + (directionOffset d).1)
          (s.playerPosition.y + (directionOffset d).2) = some false := by
        apply isValidMove_eq_false.2
        rcases h with hnb | hwall
        · exact Or.inl hnb
        · by_cases hb : 0 ≤ s.playerPosition.x + (directionOffset d).1 ∧
              s.playerPosition.x + (directionOffset d).1 < s.boardWidth ∧
              0 ≤ s.playerPosition.y + (directionOffset d).2 ∧
              s.playerPosition.y + (directionOffset d).2 < s.boardHeight
          · exact Or.inr ⟨hb, hwall⟩
          · exact Or.inl hb
      rw [hf]
  refine ⟨main, ?_, rfl, rfl, by cases d <;> rfl⟩
  rintro ⟨hw, hh⟩
  apply main
  left
  unfold InBounds
  rw [hw]
  dsimp only
  omega

theorem wall_rejection_witness :
    cellAt (Sokoban.load (some yardLevel)).gameBoard 2 0 = some '#' ∧
      (Sokoban.load (some yardLevel)).movePlayer Direction.Up =
        some (Sokoban.load (some yardLevel)) ∧
      (Sokoban.load none).movePlayer Direction.Left = some (Sokoban.load none) :=
  ⟨by decide,
    (wall_rejection (Sokoban.load (some yardLevel)) Direction.Up).1 (Or.inr (by decide)),
    (wall_rejection (Sokoban.load none) Direction.Left).2.1 ⟨by decide, by decide⟩⟩

/-- C9 (a blocked push is not a silent no-op).  In `blockedState` the player at `(1,0)` faces
the crate at `(2,0)` with the wall at `(3,0)` behind it, the undo stack is empty and the redo
stack holds one snapshot.  `movePlayer Right` cannot push the crate: position, board and
`moveCount` stay as they were, but the call has pushed a snapshot of the unchanged state onto
the undo stack and emptied the redo stack, so the engine is not the one before the call.
On the freshly loaded `restingLevel`, whose only crate rests on a target against the wall, the
same blocked push also sets the won flag. -/
theorem blocked_push_touches_history :
    blockedState.gameWon = false ∧
      blockedState.playerPosition = ⟨1, 0⟩ ∧
      cellAt blockedState.gameBoard 2 0 = some 'A' ∧
      cellAt blockedState.gameBoard 3 0 = some '#' ∧
      blockedState.undoStack = [] ∧
      blockedState.redoStack = [⟨⟨0, 0⟩, ["..A#".toList], 1⟩] ∧
      blockedState.movePlayer Direction.Right =
        some { blockedState with
          undoStack := [⟨⟨1, 0⟩, ["..A#".toList], 0⟩]
          redoStack := []
          lastDirection := Direction.Right } ∧
      blockedState.movePlayer Direction.Right ≠ some blockedState ∧
      (Sokoban.load (some restingLevel)).gameWon = false ∧
      (Sokoban.load (some restingLevel)).movePlayer Direction.Right =
        some { Sokoban.load (some restingLevel) with
          undoStack := [⟨⟨0, 0⟩, [".1#".toList], 0⟩]
          lastDirection := Direction.Right
          gameWon := true
          victorySoundPlayed := true
          victorySoundPlays := 1 } := by
  decide

/-- C10 (won freezes moves).  When the won flag is set, `movePlayer d` returns the engine
unchanged in every member, whatever the direction. -/
theorem won_freezes_moves (s : Sokoban) (d : Direction) (hw : s.gameWon = true) :
    s.movePlayer d = some s := by
  unfold Sokoban.movePlayer
  rw [if_pos hw]

theorem won_freezes_moves_witness :
    demoPushed.gameWon = true ∧ demoPushed.movePlayer Direction.Left = some demoPushed :=
  ⟨by decide, won_freezes_moves demoPushed Direction.Left (by decide)⟩

/-! ## Invariants of runs -/

theorem undo_initial (s : Sokoban) :
    s.undo.initialGameBoard = s.initialGameBoard ∧
      s.undo.initialPlayerPosition = s.initialPlayerPosition := by
  unfold Sokoban.undo
  cases s.undoStack.getLast? <;> exact ⟨rfl, rfl⟩

theorem redo_initial (s : Sokoban) :
    s.redo.initialGameBoard = s.initialGameBoard ∧
      s.redo.initialPlayerPosition = s.initialPlayerPosition := by
  unfold Sokoban.redo
  cases s.redoStack.getLast? with
  | none => exact ⟨rfl, rfl⟩
  | some g =>
    obtain ⟨-, -, -, hip, -, hib, -⟩ := checkWinCondition_frame
      { s with
        undoStack := s.undoStack ++ [⟨s.playerPosition, s.gameBoard, s.moveCount⟩]
        redoStack := s.redoStack.dropLast
        playerPosition := g.playerPosition
        gameBoard := g.gameBoard
        moveCount := g.moveCount }
    exact ⟨hib, hip⟩

theorem sound_rectangular {w h : Int} {s : Sokoban} (hs : s.Sound w h) :
    Rectangular s.boardWidth s.boardHeight s.gameBoard := by
  obtain ⟨hw, hh, he⟩ := hs
  rw [hw, hh]
  exact he.1

theorem sound_movePlayer {w h : Int} {s s1 : Sokoban} {d : Direction} (hs : s.Sound w h)
    (hm : s.movePlayer d = some s1) : s1.Sound w h := by
  obtain ⟨hw, hh, he⟩ := hs
  obtain ⟨hw1, hh1, -⟩ := movePlayer_frame hm
  exact ⟨hw1.trans hw, hh1.trans hh,
    everywhere_movePlayer he hm (movePlayer_rectangular hm he.1)⟩

theorem sound_undo {w h : Int} {s : Sokoban} (hs : s.Sound w h) : s.undo.Sound w h :=
  ⟨(undo_dims s).1.trans hs.1, (undo_dims s).2.trans hs.2.1, everywhere_undo hs.2.2⟩

theorem sound_redo {w h : Int} {s : Sokoban} (hs : s.Sound w h) : s.redo.Sound w h :=
  ⟨(redo_dims s).1.trans hs.1, (redo_dims s).2.trans hs.2.1, everywhere_redo hs.2.2⟩

theorem sound_reset {w h : Int} {s : Sokoban} (hs : s.Sound w h) : s.reset.Sound w h :=
  ⟨hs.1, hs.2.1, everywhere_reset hs.2.2⟩

theorem sound_load (lv : Level)
    (hr : Rectangular lv.boardWidth lv.boardHeight lv.gameBoard) :
    (Sokoban.load (some lv)).Sound lv.boardWidth lv.boardHeight :=
  ⟨rfl, rfl, load_everywhere lv hr⟩

/-- A property `J` of sound engines that each of the four commands preserves holds after every
run of commands from a sound engine satisfying it, and the run never indexes outside the
board. -/
theorem run_invariant {w h : Int} {J : Sokoban → Prop}
    (hmove : ∀ (s s1 : Sokoban) (d : Direction), s.Sound w h → J s →
      s.movePlayer d = some s1 → J s1)
    (hundo : ∀ s : Sokoban, s.Sound w h → J s → J s.undo)
    (hredo : ∀ s : Sokoban, s.Sound w h → J s → J s.redo)
    (hreset : ∀ s : Sokoban, s.Sound w h → J s → J s.reset)
    (cs : List Command) :
    ∀ s : Sokoban, s.Sound w h → J s →
      ∃ s1, s.run cs = some s1 ∧ s1.Sound w h ∧ J s1 := by
  induction cs with
  | nil =>
    intro s hs hj
    exact ⟨s, rfl, hs, hj⟩
  | cons c cs ih =>
    intro s hs hj
    cases c with
    | move d =>
      obtain ⟨s1, hm⟩ := movePlayer_isSome d (sound_rectangular hs)
      obtain ⟨s2, hrun, h2⟩ := ih s1 (sound_movePlayer hs hm) (hmove s s1 d hs hj hm)
      refine ⟨s2, ?_, h2⟩
      simp only [Sokoban.run, Sokoban.exec, hm]
      exact hrun
    | undo =>
      obtain ⟨s2, hrun, h2⟩ := ih s.undo (sound_undo hs) (hundo s hs hj)
      exact ⟨s2, by simpa only [Sokoban.run, Sokoban.exec] using hrun, h2⟩
    | redo =>
      obtain ⟨s2, hrun, h2⟩ := ih s.redo (sound_redo hs) (hredo s hs hj)
      exact ⟨s2, by simpa only [Sokoban.run, Sokoban.exec] using hrun, h2⟩
    | reset =>
      obtain ⟨s2, hrun, h2⟩ := ih s.reset (sound_reset hs) (hreset s hs hj)
      exact ⟨s2, by simpa only [Sokoban.run, Sokoban.exec] using hrun, h2⟩

/-- What an accepted or rejected `movePlayer` does to the members other than position, board
and `moveCount`: either nothing at all, or the result is a win check on an engine whose undo
stack ends with the pre-move snapshot. -/
theorem movePlayer_shape {s s1 : Sokoban} {d : Direction} (h : s.movePlayer d = some s1) :
    s1 = s ∨ ∃ p b m, s1 = Sokoban.checkWinCondition
      { s.saveState with playerPosition := p, gameBoard := b, moveCount := m,
                         lastDirection := d } := by
  rcases movePlayer_cases h with ⟨rfl, -⟩ | ⟨-, -, hc | hc | hc⟩
  · exact Or.inl rfl
  · obtain ⟨c, -, -, -, rfl⟩ := hc
    exact Or.inr ⟨_, _, _, rfl⟩
  · obtain ⟨c, -, -, -, rfl⟩ := hc
    exact Or.inr ⟨_, _, _, rfl⟩
  · obtain ⟨c0, c, b1, b2, -, -, -, -, -, -, -, -, rfl⟩ := hc
    exact Or.inr ⟨_, _, _, rfl⟩

theorem won_undoStack_movePlayer {s s1 : Sokoban} {d : Direction}
    (hj : s.gameWon = true → s.undoStack ≠ []) (hm : s.movePlayer d = some s1) :
    s1.gameWon = true → s1.undoStack ≠ [] := by
  rcases movePlayer_shape hm with rfl | ⟨p, b, m, rfl⟩
  · exact hj
  · intro _
    rw [(checkWinCondition_frame _).2.2.2.2.2.2.2.2.1]
    show s.undoStack ++ [_] ≠ []
    simp

theorem won_undoStack_redo {s : Sokoban} (hj : s.gameWon = true → s.undoStack ≠ []) :
    s.redo.gameWon = true → s.redo.undoStack ≠ [] := by
  cases hl : s.redoStack.getLast? with
  | none =>
    rw [redo_eq_self (List.getLast?_eq_none_iff.1 hl)]
    exact hj
  | some g =>
    intro _
    rw [redo_eq_of_getLast hl, (checkWinCondition_frame _).2.2.2.2.2.2.2.2.1]
    show s.undoStack ++ [_] ≠ []
    simp

theorem undo_eq_self {s : Sokoban} (h : s.undoStack = []) : s.undo = s := by
  unfold Sokoban.undo
  rw [h]
  rfl

theorem undo_gameWon {s : Sokoban} (h : s.undoStack ≠ []) : s.undo.gameWon = false := by
  cases hl : s.undoStack.getLast? with
  | none => exact absurd (List.getLast?_eq_none_iff.1 hl) h
  | some g => rw [undo_eq_of_getLast hl]

/-- C11 (win monotonicity under undo).  From an engine loaded with a rectangular board, every
sequence of commands runs and ends in a state where a set won flag comes with a non-empty undo
stack; hence `isWon` is false right after `undo` there, whatever the restored board holds. -/
theorem undo_clears_won (lv : Level)
    (hr : Rectangular lv.boardWidth lv.boardHeight lv.gameBoard) (cs : List Command) :
    ∃ s, (Sokoban.load (some lv)).run cs = some s ∧
      (s.gameWon = true → s.undoStack ≠ []) ∧ s.undo.isWon = false := by
  obtain ⟨s, hrun, -, hj⟩ := run_invariant
    (J := fun s => s.gameWon = true → s.undoStack ≠ [])
    (w := lv.boardWidth) (h := lv.boardHeight)
    (fun s s1 d _ hj hm => won_undoStack_movePlayer hj hm)
    (fun s _ hj => by
      intro hw
      by_cases hu : s.undoStack = []
      · rw [undo_eq_self hu] at hw ⊢
        exact hj hw
      · rw [undo_gameWon hu] at hw
        cases hw)
    (fun s _ hj => won_undoStack_redo hj)
    (fun s _ _ hw => by cases hw)
    cs (Sokoban.load (some lv)) (sound_load lv hr) (fun hw => by cases hw)
  refine ⟨s, hrun, hj, ?_⟩
  unfold Sokoban.isWon
  by_cases hu : s.undoStack = []
  · rw [undo_eq_self hu]
    cases hw : s.gameWon with
    | false => rfl
    | true => exact absurd hu (hj hw)
  · exact undo_gameWon hu

theorem undo_clears_won_witness :
    ∃ s, (Sokoban.load (some demoLevel)).run
        [Command.move Direction.Right, Command.undo, Command.redo] = some s ∧
      (s.gameWon = true → s.undoStack ≠ []) ∧ s.undo.isWon = false :=
  undo_clears_won demoLevel (by decide)
    [Command.move Direction.Right, Command.undo, Command.redo]

/-- C12 (reset returns to the loaded state).  From an engine loaded with a rectangular board,
every sequence of commands runs and ends in a state whose two initial members are still the
loaded board and start position; `reset` there yields the loaded board and start position,
`moveCount = 0`, a cleared won flag, two empty stacks and `lastDirection = Down`; and a second
`reset` changes nothing. -/
theorem reset_restores_loaded (lv : Level)
    (hr : Rectangular lv.boardWidth lv.boardHeight lv.gameBoard) (cs : List Command) :
    ∃ s, (Sokoban.load (some lv)).run cs = some s ∧
      s.initialGameBoard = lv.gameBoard ∧ s.initialPlayerPosition = lv.playerPosition ∧
      s.reset.gameBoard = lv.gameBoard ∧ s.reset.playerPosition = lv.playerPosition ∧
      s.reset.moveCount = 0 ∧ s.reset.gameWon = false ∧
      s.reset.undoStack = [] ∧ s.reset.redoStack = [] ∧
      s.reset.lastDirection = Direction.Down ∧
      s.reset.initialGameBoard = lv.gameBoard ∧
      s.reset.initialPlayerPosition = lv.playerPosition ∧
      s.reset.reset = s.reset := by
  obtain ⟨s, hrun, -, hb, hp⟩ := run_invariant
    (J := fun s => s.initialGameBoard = lv.gameBoard ∧
      s.initialPlayerPosition = lv.playerPosition)
    (w := lv.boardWidth) (h := lv.boardHeight)
    (fun s s1 d _ hj hm => by
      obtain ⟨-, -, hip, hib, -⟩ := movePlayer_frame hm
      exact ⟨hib.trans hj.1, hip.trans hj.2⟩)
    (fun s _ hj => ⟨(undo_initial s).1.trans hj.1, (undo_initial s).2.trans hj.2⟩)
    (fun s _ hj => ⟨(redo_initial s).1.trans hj.1, (redo_initial s).2.trans hj.2⟩)
    (fun s _ hj => hj)
    cs (Sokoban.load (some lv)) (sound_load lv hr) ⟨rfl, rfl⟩
  exact ⟨s, hrun, hb, hp, hb, hp, rfl, rfl, rfl, rfl, rfl, hb, hp, rfl⟩

theorem reset_restores_loaded_witness :
    ∃ s, (Sokoban.load (some yardLevel)).run
        [Command.move Direction.Right, Command.move Direction.Down, Command.undo] = some s ∧
      s.initialGameBoard = yardLevel.gameBoard ∧
      s.initialPlayerPosition = yardLevel.playerPosition ∧
      s.reset.gameBoard = yardLevel.gameBoard ∧
      s.reset.playerPosition = yardLevel.playerPosition ∧
      s.reset.moveCount = 0 ∧ s.reset.gameWon = false ∧
      s.reset.undoStack = [] ∧ s.reset.redoStack = [] ∧
      s.reset.lastDirection = Direction.Down ∧
      s.reset.initialGameBoard = yardLevel.gameBoard ∧
      s.reset.initialPlayerPosition = yardLevel.playerPosition ∧
      s.reset.reset = s.reset :=
  reset_restores_loaded yardLevel (by decide)
    [Command.move Direction.Right, Command.move Direction.Down, Command.undo]

/-- C13 (empty-history no-ops).  `undo` on an empty undo stack returns the engine unchanged in
every member, and so does `redo` on an empty redo stack. -/
theorem empty_history_noop (s : Sokoban) :
    (s.undoStack = [] → s.undo = s) ∧ (s.redoStack = [] → s.redo = s) :=
  ⟨undo_eq_self, redo_eq_self⟩

theorem empty_history_noop_witness :
    (Sokoban.load (some yardLevel)).undo = Sokoban.load (some yardLevel) ∧
      demoPushed.redo = demoPushed :=
  ⟨(empty_history_noop (Sokoban.load (some yardLevel))).1 (by decide),
    (empty_history_noop demoPushed).2 (by decide)⟩

/-! ## Plain moves, blocked pushes and moving back -/

theorem movePlayer_plain {s : Sokoban} {d : Direction} {c : Char}
    (hr : Rectangular s.boardWidth s.boardHeight s.gameBoard) (hw : s.gameWon = false)
    (hc : cellAt s.gameBoard (s.playerPosition.x + (directionOffset d).1)
      (s.playerPosition.y + (directionOffset d).2) = some c)
    (hwall : c ≠ '#') (hA : c ≠ 'A') (h1 : c ≠ '1') :
    s.movePlayer d = some (Sokoban.checkWinCondition
      { s.saveState with
        playerPosition := ⟨s.playerPosition.x + (directionOffset d).1,
          s.playerPosition.y + (directionOffset d).2⟩
        moveCount := s.moveCount + 1
        lastDirection := d }) := by
  obtain ⟨s1, hm⟩ := movePlayer_isSome d hr
  have hb := cellAt_bounds hr hc
  rcases movePlayer_cases hm with ⟨-, hw1 | hf⟩ | ⟨-, -, hcase | hcase | hcase⟩
  · rw [hw] at hw1
    cases hw1
  · rcases isValidMove_eq_false.1 hf with hnb | ⟨-, hwl⟩
    · exact absurd hb hnb
    · rw [hc] at hwl
      cases hwl
      exact absurd rfl hwall
  · obtain ⟨c1, -, -, -, rfl⟩ := hcase
    exact hm
  · obtain ⟨c1, hc1, hcr, -⟩ := hcase
    rw [hc] at hc1
    cases hc1
    rcases hcr with hcr | hcr
    · exact absurd hcr hA
    · exact absurd hcr h1
  · obtain ⟨c1, c2, b1, b2, hc1, hcr, -⟩ := hcase
    rw [hc] at hc1
    cases hc1
    rcases hcr with hcr | hcr
    · exact absurd hcr hA
    · exact absurd hcr h1

theorem movePlayer_blocked {s : Sokoban} {d : Direction} {c0 : Char}
    (hr : Rectangular s.boardWidth s.boardHeight s.gameBoard) (hw : s.gameWon = false)
    (hc0 : cellAt s.gameBoard (s.playerPosition.x + (directionOffset d).1)
      (s.playerPosition.y + (directionOffset d).2) = some c0)
    (hcrate : c0 = 'A' ∨ c0 = '1')
    (hblk : ¬InBounds s.boardWidth s.boardHeight
        ⟨s.playerPosition.x + (directionOffset d).1 + (directionOffset d).1,
          s.playerPosition.y + (directionOffset d).2 + (directionOffset d).2⟩ ∨
      cellAt s.gameBoard (s.playerPosition.x + (directionOffset d).1 + (directionOffset d).1)
        (s.playerPosition.y + (directionOffset d).2 + (directionOffset d).2) = some '#' ∨
      cellAt s.gameBoard (s.playerPosition.x + (directionOffset d).1 + (directionOffset d).1)
        (s.playerPosition.y + (directionOffset d).2 + (directionOffset d).2) = some 'A' ∨
      cellAt s.gameBoard (s.playerPosition.x + (directionOffset d).1 + (directionOffset d).1)
        (s.playerPosition.y + (directionOffset d).2 + (directionOffset d).2) = some '1') :
    s.movePlayer d =
      some (Sokoban.checkWinCondition { s.saveState with lastDirection := d }) := by
  obtain ⟨s1, hm⟩ := movePlayer_isSome d hr
  have hb0 := cellAt_bounds hr hc0
  rcases movePlayer_cases hm with ⟨-, hw1 | hf⟩ | ⟨-, -, hcase | hcase | hcase⟩
  · rw [hw] at hw1
    cases hw1
  · rcases isValidMove_eq_false.1 hf with hnb | ⟨-, hwl⟩
    · exact absurd hb0 hnb
    · rw [hc0] at hwl
      cases hwl
      rcases hcrate with hcr | hcr <;> cases hcr
  · obtain ⟨c1, hc1, hA1, h11, -⟩ := hcase
    rw [hc0] at hc1
    cases hc1
    rcases hcrate with hcr | hcr
    · exact absurd hcr hA1
    · exact absurd hcr h11
  · obtain ⟨c1, -, -, -, rfl⟩ := hcase
    exact hm
  · obtain ⟨c1, c2, b1, b2, -, -, hv, hc2, hA2, h12, -⟩ := hcase
    obtain ⟨hb, c3, hc3, hw3⟩ := isValidMove_eq_true.1 hv
    rw [hc2] at hc3
    cases hc3
    rcases hblk with hnb | hwl | hcA | hc1
    · exact absurd hb hnb
    · rw [hc2] at hwl
      cases hwl
      exact absurd rfl hw3
    · rw [hc2] at hcA
      cases hcA
      exact absurd rfl hA2
    · rw [hc2] at hc1
      cases hc1
      exact absurd rfl h12

theorem movePlayer_of_won {s : Sokoban} (hw : s.gameWon = true) (d : Direction) :
    s.movePlayer d = some s := by
  unfold Sokoban.movePlayer
  rw [if_pos hw]

theorem directionOffset_opposite (d : Direction) :
    (directionOffset (opposite d)).1 = -(directionOffset d).1 ∧
      (directionOffset (opposite d)).2 = -(directionOffset d).2 := by
  cases d <;> exact ⟨rfl, rfl⟩

theorem movePlayer_plain_spec {s : Sokoban} {d : Direction} {c : Char}
    (hr : Rectangular s.boardWidth s.boardHeight s.gameBoard) (hw : s.gameWon = false)
    (hc : cellAt s.gameBoard (s.playerPosition.x + (directionOffset d).1)
      (s.playerPosition.y + (directionOffset d).2) = some c)
    (hwall : c ≠ '#') (hA : c ≠ 'A') (h1 : c ≠ '1') :
    ∃ s1, s.movePlayer d = some s1 ∧ s1.boardWidth = s.boardWidth ∧
      s1.boardHeight = s.boardHeight ∧ s1.gameBoard = s.gameBoard ∧
      s1.playerPosition = ⟨s.playerPosition.x + (directionOffset d).1,
        s.playerPosition.y + (directionOffset d).2⟩ ∧
      s1.gameWon = !Sokoban.hasBareCrate s.gameBoard := by
  refine ⟨_, movePlayer_plain hr hw hc hwall hA h1, ?_⟩
  obtain ⟨hw1, hh1, hp1, -, hb1, -⟩ := checkWinCondition_frame
    { s.saveState with
      playerPosition := ⟨s.playerPosition.x + (directionOffset d).1,
        s.playerPosition.y + (directionOffset d).2⟩
      moveCount := s.moveCount + 1
      lastDirection := d }
  exact ⟨hw1, hh1, hb1, hp1, checkWinCondition_gameWon _⟩

/-- Stepping onto a free cell and back: when the engine is won, or its board holds a bare crate,
and both the player's cell and the cell next to it in direction `d` are free (on the board,
no wall, no crate), `movePlayer d` and then `movePlayer (opposite d)` both return and the
player is where it started. -/
theorem movePlayer_there_and_back {s : Sokoban} {d : Direction} {c0 c : Char}
    (hr : Rectangular s.boardWidth s.boardHeight s.gameBoard)
    (hlive : s.gameWon = true ∨ ∃ x y, cellAt s.gameBoard x y = some 'A')
    (hc0 : cellAt s.gameBoard s.playerPosition.x s.playerPosition.y = some c0)
    (hwall0 : c0 ≠ '#') (hA0 : c0 ≠ 'A') (h10 : c0 ≠ '1')
    (hc : cellAt s.gameBoard (s.playerPosition.x + (directionOffset d).1)
      (s.playerPosition.y + (directionOffset d).2) = some c)
    (hwall : c ≠ '#') (hA : c ≠ 'A') (h1 : c ≠ '1') :
    ∃ s1 s2, s.movePlayer d = some s1 ∧ s1.movePlayer (opposite d) = some s2 ∧
      s2.playerPosition = s.playerPosition := by
  cases hw : s.gameWon with
  | true =>
    exact ⟨s, s, movePlayer_of_won hw d, movePlayer_of_won hw (opposite d), rfl⟩
  | false =>
    have hbare : ∃ x y, cellAt s.gameBoard x y = some 'A' := by
      rcases hlive with hw1 | hb
      · rw [hw] at hw1
        cases hw1
      · exact hb
    have hbc : Sokoban.hasBareCrate s.gameBoard = true := (hasBareCrate_iff _).2 hbare
    obtain ⟨s1, hm1, hw1, hh1, hb1, hp1, hg1⟩ := movePlayer_plain_spec hr hw hc hwall hA h1
    have e := directionOffset_opposite d
    have hback : cellAt s1.gameBoard (s1.playerPosition.x + (directionOffset (opposite d)).1)
        (s1.playerPosition.y + (directionOffset (opposite d)).2) = some c0 := by
      rw [hb1, hp1, e.1, e.2]
      show cellAt s.gameBoard (s.playerPosition.x + (directionOffset d).1 + -(directionOffset d).1)
        (s.playerPosition.y + (directionOffset d).2 + -(directionOffset d).2) = some c0
      rw [add_neg_cancel_right, add_neg_cancel_right]
      exact hc0
    obtain ⟨s2, hm2, -, -, -, hp2, -⟩ := movePlayer_plain_spec (s := s1) (d := opposite d)
      (by rw [hw1, hh1, hb1]; exact hr) (by rw [hg1, hbc]; rfl) hback hwall0 hA0 h10
    refine ⟨s1, s2, hm1, hm2, ?_⟩
    rw [hp2, hp1, e.1, e.2]
    show (⟨s.playerPosition.x + (directionOffset d).1 + -(directionOffset d).1,
      s.playerPosition.y + (directionOffset d).2 + -(directionOffset d).2⟩ : Vector2i) =
        s.playerPosition
    rw [add_neg_cancel_right, add_neg_cancel_right]

theorem movePlayer_standable {s s1 : Sokoban} {d : Direction}
    (hp : ∃ c, cellAt s.gameBoard s.playerPosition.x s.playerPosition.y = some c ∧
      c ≠ '#' ∧ c ≠ 'A' ∧ c ≠ '1')
    (hm : s.movePlayer d = some s1) :
    ∃ c, cellAt s1.gameBoard s1.playerPosition.x s1.playerPosition.y = some c ∧
      c ≠ '#' ∧ c ≠ 'A' ∧ c ≠ '1' := by
  rcases movePlayer_cases hm with ⟨rfl, -⟩ | ⟨-, hv, hc | hc | hc⟩
  · exact hp
  · obtain ⟨c, hc, hA, h1, rfl⟩ := hc
    rw [(checkWinCondition_frame _).2.2.2.2.1, (checkWinCondition_frame _).2.2.1]
    obtain ⟨-, c1, hc1, hw1⟩ := isValidMove_eq_true.1 hv
    rw [hc] at hc1
    cases hc1
    exact ⟨c, hc, hw1, hA, h1⟩
  · obtain ⟨c, -, -, -, rfl⟩ := hc
    rw [(checkWinCondition_frame _).2.2.2.2.1, (checkWinCondition_frame _).2.2.1]
    exact hp
  · obtain ⟨c0, c, b1, b2, -, -, -, -, -, -, -, hb2, rfl⟩ := hc
    rw [(checkWinCondition_frame _).2.2.2.2.1, (checkWinCondition_frame _).2.2.1]
    refine ⟨_, cellAt_setCell_self hb2, ?_, ?_, ?_⟩ <;> split <;> decide

/-- From an engine loaded with a rectangular board whose start cell is free (on the board, no
wall, no crate), every run of commands returns, and in the state it reaches the board is
rectangular for the engine's dimensions and the player's cell is free. -/
theorem run_standable (lv : Level) (c0 : Char)
    (hr : Rectangular lv.boardWidth lv.boardHeight lv.gameBoard)
    (hstart : cellAt lv.gameBoard lv.playerPosition.x lv.playerPosition.y = some c0)
    (hwall0 : c0 ≠ '#') (hA0 : c0 ≠ 'A') (h10 : c0 ≠ '1') (cs : List Command) :
    ∃ s, (Sokoban.load (some lv)).run cs = some s ∧
      Rectangular s.boardWidth s.boardHeight s.gameBoard ∧
      ∃ c, cellAt s.gameBoard s.playerPosition.x s.playerPosition.y = some c ∧
        c ≠ '#' ∧ c ≠ 'A' ∧ c ≠ '1' := by
  obtain ⟨s, hrun, hw, hh, he⟩ := run_everywhere
    (P := fun p b => Rectangular lv.boardWidth lv.boardHeight b ∧
      ∃ c, cellAt b p.x p.y = some c ∧ c ≠ '#' ∧ c ≠ 'A' ∧ c ≠ '1')
    (fun _ _ hP => hP.1)
    (fun s s1 d _ _ hP hm => ⟨movePlayer_rectangular hm hP.1, movePlayer_standable hP.2 hm⟩)
    cs (Sokoban.load (some lv)) rfl rfl
    (load_everywhere lv ⟨hr, c0, hstart, hwall0, hA0, h10⟩)
  refine ⟨s, hrun, ?_, he.1.2⟩
  rw [hw, hh]
  exact he.1.1

/-- C14, as amended (move reversibility).  Let `s` be reached by a run of commands from an
engine loaded with a rectangular board whose start cell is on the board and holds neither a
wall nor a crate.  If `s` is won or its board holds a bare crate `'A'`, and the cell next to the
player in direction `d` is on the board and holds neither a wall nor a crate, then
`movePlayer d` followed by `movePlayer (opposite d)` returns and leaves the player exactly
where it was in `s`. -/
theorem move_reversibility (lv : Level) (c0 : Char)
    (hr : Rectangular lv.boardWidth lv.boardHeight lv.gameBoard)
    (hstart : cellAt lv.gameBoard lv.playerPosition.x lv.playerPosition.y = some c0)
    (hwall0 : c0 ≠ '#') (hA0 : c0 ≠ 'A') (h10 : c0 ≠ '1')
    (cs : List Command) (s : Sokoban) (hrun : (Sokoban.load (some lv)).run cs = some s)
    (d : Direction) (c : Char)
    (hc : cellAt s.gameBoard (s.playerPosition.x + (directionOffset d).1)
      (s.playerPosition.y + (directionOffset d).2) = some c)
    (hwall : c ≠ '#') (hA : c ≠ 'A') (h1 : c ≠ '1')
    (hlive : s.gameWon = true ∨ ∃ x y, cellAt s.gameBoard x y = some 'A') :
    ∃ s1 s2, s.movePlayer d = some s1 ∧ s1.movePlayer (opposite d) = some s2 ∧
      s2.playerLoc = s.playerLoc := by
  obtain ⟨s', hrun', hrect, cp, hcp, hwp, hAp, h1p⟩ :=
    run_standable lv c0 hr hstart hwall0 hA0 h10 cs
  rw [hrun] at hrun'
  cases hrun'
  exact movePlayer_there_and_back hrect hlive hcp hwp hAp h1p hc hwall hA h1

theorem move_reversibility_witness :
    ∃ s1 s2, yardStepped.movePlayer Direction.Right = some s1 ∧
      s1.movePlayer (opposite Direction.Right) = some s2 ∧
      s2.playerLoc = yardStepped.playerLoc :=
  move_reversibility yardLevel '.' (by decide) (by decide) (by decide) (by decide) (by decide)
    [Command.move Direction.Left] yardStepped (by decide) Direction.Right '.'
    (by decide) (by decide) (by decide) (by decide) (Or.inr ⟨3, 1, by decide⟩)

/-- C14, counterexamples.  On the freshly loaded `idleLevel` (no bare crate, not won) the cell
to the right of the player is free floor, yet after `movePlayer Right` and
`movePlayer (opposite Right)` the player is at `(1,0)`, not at its start `(0,0)`: the first move
sets the won flag and the second is then ignored.  On `strayLevel`, loaded from a file without
a player mark, the player is left on the wall cell `(0,0)` and again ends at `(1,0)`: the move
back runs into the wall. -/
theorem move_reversibility_counterexample :
    ((Sokoban.load (some idleLevel)).gameWon = false ∧
      (Sokoban.load (some idleLevel)).playerLoc = ⟨0, 0⟩ ∧
      cellAt (Sokoban.load (some idleLevel)).gameBoard 1 0 = some '.' ∧
      ((Sokoban.load (some idleLevel)).run
        [Command.move Direction.Right, Command.move (opposite Direction.Right)]).map
          Sokoban.playerLoc = some ⟨1, 0⟩) ∧
    ((Sokoban.load (some strayLevel)).gameWon = false ∧
      (Sokoban.load (some strayLevel)).playerLoc = ⟨0, 0⟩ ∧
      cellAt (Sokoban.load (some strayLevel)).gameBoard 1 0 = some '.' ∧
      ((Sokoban.load (some strayLevel)).run
        [Command.move Direction.Right, Command.move (opposite Direction.Right)]).map
          Sokoban.playerLoc = some ⟨1, 0⟩) := by
  decide

/-- C15 (blocked push).  In a state that is not won, with a rectangular board, where the cell
next to the player in direction `d` holds a crate and the cell beyond it is off the board, a
wall, or another crate: `movePlayer d` returns; player position, board and `moveCount` are
unchanged; the undo stack has grown by exactly one snapshot, equal to the current position,
board and `moveCount`; the redo stack is empty; `lastDirection` is `d`; and a following `undo`
changes neither position, board nor `moveCount`. -/
theorem blocked_push_postcondition (s : Sokoban) (d : Direction) (c0 : Char)
    (hr : Rectangular s.boardWidth s.boardHeight s.gameBoard) (hw : s.gameWon = false)
    (hc0 : cellAt s.gameBoard (s.playerPosition.x + (directionOffset d).1)
      (s.playerPosition.y + (directionOffset d).2) = some c0)
    (hcrate : c0 = 'A' ∨ c0 = '1')
    (hblk : ¬InBounds s.boardWidth s.boardHeight
        ⟨s.playerPosition.x + (directionOffset d).1 + (directionOffset d).1,
          s.playerPosition.y + (directionOffset d).2 + (directionOffset d).2⟩ ∨
      cellAt s.gameBoard (s.playerPosition.x + (directionOffset d).1 + (directionOffset d).1)
        (s.playerPosition.y + (directionOffset d).2 + (directionOffset d).2) = some '#' ∨
      cellAt s.gameBoard (s.playerPosition.x + (directionOffset d).1 + (directionOffset d).1)
        (s.playerPosition.y + (directionOffset d).2 + (directionOffset d).2) = some 'A' ∨
      cellAt s.gameBoard (s.playerPosition.x + (directionOffset d).1 + (directionOffset d).1)
        (s.playerPosition.y + (directionOffset d).2 + (directionOffset d).2) = some '1') :
    ∃ s1, s.movePlayer d = some s1 ∧
      s1.playerPosition = s.playerPosition ∧ s1.gameBoard = s.gameBoard ∧
      s1.moveCount = s.moveCount ∧
      s1.undoStack = s.undoStack ++ [⟨s.playerPosition, s.gameBoard, s.moveCount⟩] ∧
      s1.redoStack = [] ∧ s1.lastDirection = d ∧
      s1.undo.playerPosition = s1.playerPosition ∧ s1.undo.gameBoard = s1.gameBoard ∧
      s1.undo.moveCount = s1.moveCount := by
  refine ⟨_, movePlayer_blocked hr hw hc0 hcrate hblk, ?_⟩
  have hu : (Sokoban.checkWinCondition { s.saveState with lastDirection := d }).undo = _ :=
    undo_movePlayer_accepted s d s.playerPosition s.gameBoard s.moveCount
  obtain ⟨-, -, hp, -, hb, -, hm, hl, hus, hrs⟩ := checkWinCondition_frame
    { s.saveState with lastDirection := d }
  exact ⟨hp, hb, hm, hus, hrs, hl, (congrArg Sokoban.playerPosition hu).trans hp.symm,
    (congrArg Sokoban.gameBoard hu).trans hb.symm,
    (congrArg Sokoban.moveCount hu).trans hm.symm⟩

theorem blocked_push_postcondition_witness :
    ∃ s1, yardBlocked.movePlayer Direction.Right = some s1 ∧
      s1.playerPosition = yardBlocked.playerPosition ∧ s1.gameBoard = yardBlocked.gameBoard ∧
      s1.moveCount = yardBlocked.moveCount ∧
      s1.undoStack = yardBlocked.undoStack ++
        [⟨yardBlocked.playerPosition, yardBlocked.gameBoard, yardBlocked.moveCount⟩] ∧
      s1.redoStack = [] ∧ s1.lastDirection = Direction.Right ∧
      s1.undo.playerPosition = s1.playerPosition ∧ s1.undo.gameBoard = s1.gameBoard ∧
      s1.undo.moveCount = s1.moveCount :=
  blocked_push_postcondition yardBlocked Direction.Right '1' (by decide) (by decide)
    (by decide) (by decide) (Or.inr (Or.inl (by decide)))

/-! ## Indexing safety and the shape of the board -/

theorem pushBox_rectangular {s s2 : Sokoban} {x y : Int} {d : Direction} {r : Bool} {w h : Int}
    (hp : s.pushBox x y d = some (r, s2)) (hr : Rectangular w h s.gameBoard) :
    Rectangular w h s2.gameBoard := by
  rcases pushBox_cases hp with ⟨-, rfl, -⟩ | ⟨-, c, c0, b1, b2, -, -, -, -, hb1, -, hb2, rfl⟩
  · exact hr
  · exact rectangular_setCell hb2 (rectangular_setCell hb1 hr)

/-- C16 (indexing safety and fixed shape).  On any engine `t` whose board is rectangular for
its dimensions, wherever the player stands: `isValidMove` returns at every coordinate,
`movePlayer d` returns, `pushBox` returns at every cell that passed `isValidMove` (the only
cells `movePlayer` calls it on), so no read or write falls outside the board, and the boards
they leave are rectangular.  And from an engine loaded with a rectangular board every run of
commands returns a state with the loaded dimensions whose board is rectangular and stays so
after `undo`, `redo`, `reset` and every `movePlayer`. -/
theorem grid_shape_safety (lv : Level) (cs : List Command) (t : Sokoban) (d : Direction)
    (hr : Rectangular lv.boardWidth lv.boardHeight lv.gameBoard)
    (ht : Rectangular t.boardWidth t.boardHeight t.gameBoard) :
    ((∀ x y : Int, ∃ v, t.isValidMove x y = some v) ∧
      (∃ t1, t.movePlayer d = some t1 ∧
        Rectangular t.boardWidth t.boardHeight t1.gameBoard) ∧
      (∀ x y : Int, t.isValidMove x y = some true →
        ∃ r t2, t.pushBox x y d = some (r, t2) ∧
          Rectangular t.boardWidth t.boardHeight t2.gameBoard)) ∧
    ∃ s, (Sokoban.load (some lv)).run cs = some s ∧
      s.boardWidth = lv.boardWidth ∧ s.boardHeight = lv.boardHeight ∧
      Rectangular lv.boardWidth lv.boardHeight s.gameBoard ∧
      Rectangular lv.boardWidth lv.boardHeight s.undo.gameBoard ∧
      Rectangular lv.boardWidth lv.boardHeight s.redo.gameBoard ∧
      Rectangular lv.boardWidth lv.boardHeight s.reset.gameBoard ∧
      ∀ d1, ∃ s1, s.movePlayer d1 = some s1 ∧
        Rectangular lv.boardWidth lv.boardHeight s1.gameBoard := by
  refine ⟨⟨fun x y => isValidMove_isSome x y ht, ?_, ?_⟩, ?_⟩
  · obtain ⟨t1, hm⟩ := movePlayer_isSome d ht
    exact ⟨t1, hm, movePlayer_rectangular hm ht⟩
  · intro x y hv
    obtain ⟨-, c, hc, -⟩ := isValidMove_eq_true.1 hv
    obtain ⟨⟨r, t2⟩, hp⟩ := pushBox_isSome d ht hc
    exact ⟨r, t2, hp, pushBox_rectangular hp ht⟩
  · obtain ⟨s, hrun, hs, -⟩ := run_invariant (J := fun _ => True)
      (w := lv.boardWidth) (h := lv.boardHeight)
      (fun _ _ _ _ _ _ => trivial) (fun _ _ _ => trivial) (fun _ _ _ => trivial)
      (fun _ _ _ => trivial) cs (Sokoban.load (some lv)) (sound_load lv hr) trivial
    refine ⟨s, hrun, hs.1, hs.2.1, hs.2.2.1, (sound_undo hs).2.2.1, (sound_redo hs).2.2.1,
      (sound_reset hs).2.2.1, ?_⟩
    intro d1
    obtain ⟨s1, hm⟩ := movePlayer_isSome d1 (sound_rectangular hs)
    exact ⟨s1, hm, (sound_movePlayer hs hm).2.2.1⟩

theorem grid_shape_safety_witness :
    ((∀ x y : Int, ∃ v, yardOutside.isValidMove x y = some v) ∧
      (∃ t1, yardOutside.movePlayer Direction.Up = some t1 ∧
        Rectangular yardOutside.boardWidth yardOutside.boardHeight t1.gameBoard) ∧
      (∀ x y : Int, yardOutside.isValidMove x y = some true →
        ∃ r t2, yardOutside.pushBox x y Direction.Up = some (r, t2) ∧
          Rectangular yardOutside.boardWidth yardOutside.boardHeight t2.gameBoard)) ∧
    ∃ s, (Sokoban.load (some yardLevel)).run
        [Command.move Direction.Right, Command.move Direction.Right,
          Command.move Direction.Right, Command.undo] = some s ∧
      s.boardWidth = yardLevel.boardWidth ∧ s.boardHeight = yardLevel.boardHeight ∧
      Rectangular yardLevel.boardWidth yardLevel.boardHeight s.gameBoard ∧
      Rectangular yardLevel.boardWidth yardLevel.boardHeight s.undo.gameBoard ∧
      Rectangular yardLevel.boardWidth yardLevel.boardHeight s.redo.gameBoard ∧
      Rectangular yardLevel.boardWidth yardLevel.boardHeight s.reset.gameBoard ∧
      ∀ d1, ∃ s1, s.movePlayer d1 = some s1 ∧
        Rectangular yardLevel.boardWidth yardLevel.boardHeight s1.gameBoard :=
  grid_shape_safety yardLevel
    [Command.move Direction.Right, Command.move Direction.Right,
      Command.move Direction.Right, Command.undo] yardOutside Direction.Up
    (by decide) (by decide)

/-- C18 (the player never stands on a wall or a crate).  From an engine loaded with a
rectangular board whose start cell is on the board and holds neither a wall nor a crate, every
run of commands returns, and in the state reached the cell at the player's position is on the
board and holds neither a wall `'#'` nor a crate (`'A'`, `'1'`). -/
theorem player_cell_free (lv : Level) (c0 : Char)
    (hr : Rectangular lv.boardWidth lv.boardHeight lv.gameBoard)
    (hstart : cellAt lv.gameBoard lv.playerPosition.x lv.playerPosition.y = some c0)
    (hwall0 : c0 ≠ '#') (hA0 : c0 ≠ 'A') (h10 : c0 ≠ '1') (cs : List Command) :
    ∃ s, (Sokoban.load (some lv)).run cs = some s ∧
      ∃ c, cellAt s.gameBoard s.playerLoc.x s.playerLoc.y = some c ∧
        c ≠ '#' ∧ c ≠ 'A' ∧ c ≠ '1' := by
  obtain ⟨s, hrun, -, hfree⟩ := run_standable lv c0 hr hstart hwall0 hA0 h10 cs
  exact ⟨s, hrun, hfree⟩

theorem player_cell_free_witness :
    ∃ s, (Sokoban.load (some yardLevel)).run
        [Command.move Direction.Right, Command.move Direction.Down, Command.undo,
          Command.redo, Command.move Direction.Up] = some s ∧
      ∃ c, cellAt s.gameBoard s.playerLoc.x s.playerLoc.y = some c ∧
        c ≠ '#' ∧ c ≠ 'A' ∧ c ≠ '1' :=
  player_cell_free yardLevel '.' (by decide) (by decide) (by decide) (by decide) (by decide)
    [Command.move Direction.Right, Command.move Direction.Down, Command.undo,
      Command.redo, Command.move Direction.Up]

/-! ## The structural layer: walls and targets -/

theorem cellCount_set (p : Char → Bool) (board : Board) (j : Nat) (row r1 : List Char)
    (hrow : board[j]? = some row) :
    cellCount p (board.set j r1) + row.countP p = cellCount p board + r1.countP p := by
  induction board generalizing j with
  | nil => simp at hrow
  | cons r rest ih =>
    cases j with
    | zero =>
      simp only [List.getElem?_cons_zero, Option.some.injEq] at hrow
      subst hrow
      simp only [cellCount, List.set_cons_zero, List.map_cons, List.sum_cons]
      omega
    | succ j =>
      simp only [List.getElem?_cons_succ] at hrow
      have := ih j hrow
      simp only [cellCount, List.set_cons_succ, List.map_cons, List.sum_cons] at this ⊢
      omega

/-- Overwriting a cell with a character of the same class (`p` agrees on the old and the new
content) changes neither the class of any cell nor the number of cells in the class. -/
theorem setCell_same_class (p : Char → Bool) {board b1 : Board} {x y : Int} {c c0 : Char}
    (hs : setCell board x y c = some b1) (hc : cellAt board x y = some c0)
    (hp : p c0 = p c) :
    (∀ x1 y1 : Int, cellIs p b1 x1 y1 = cellIs p board x1 y1) ∧
      cellCount p b1 = cellCount p board := by
  constructor
  · intro x1 y1
    by_cases he : x1 = x ∧ y1 = y
    · obtain ⟨rfl, rfl⟩ := he
      unfold cellIs
      rw [cellAt_setCell_self hs, hc]
      exact hp.symm
    · unfold cellIs
      rw [cellAt_setCell_of_ne hs x1 y1 he]
  · obtain ⟨hx, hy, row, hrow, hlt, rfl⟩ := setCell_eq_some.1 hs
    obtain ⟨-, -, row1, hrow1, hcell⟩ := cellAt_eq_some.1 hc
    rw [hrow] at hrow1
    cases hrow1
    obtain ⟨hlt1, hget⟩ := List.getElem?_eq_some.1 hcell
    have h1 := cellCount_set p board y.toNat row (row.set x.toNat c) hrow
    have h2 := List.countP_set p row x.toNat c hlt
    have h3 := List.boole_getElem_le_countP p row x.toNat hlt
    rw [hget] at h2 h3
    rw [hp] at h2 h3
    omega

/-- A class of cells that a push respects (the cell beyond the crate and the crate's cell keep
their class) is left alone by `movePlayer`, cell by cell and in number. -/
theorem movePlayer_same_class (p : Char → Bool)
    (hbeyond : ∀ c : Char, c ≠ '#' → c ≠ 'A' → c ≠ '1' → p c = p (if c = 'a' then '1' else 'A'))
    (hA : p 'A' = p '.') (h1 : p '1' = p 'a')
    {s s1 : Sokoban} {d : Direction} (hm : s.movePlayer d = some s1) :
    (∀ x y : Int, cellIs p s1.gameBoard x y = cellIs p s.gameBoard x y) ∧
      cellCount p s1.gameBoard = cellCount p s.gameBoard := by
  rcases movePlayer_cases hm with ⟨rfl, -⟩ | ⟨-, -, hc | hc | hc⟩
  · exact ⟨fun _ _ => rfl, rfl⟩
  · obtain ⟨c, -, -, -, rfl⟩ := hc
    rw [(checkWinCondition_frame _).2.2.2.2.1]
    exact ⟨fun _ _ => rfl, rfl⟩
  · obtain ⟨c, -, -, -, rfl⟩ := hc
    rw [(checkWinCondition_frame _).2.2.2.2.1]
    exact ⟨fun _ _ => rfl, rfl⟩
  · obtain ⟨c0, c, b1, b2, hc0, hcr, hv, hc, hcA, hc1, hb1, hb2, rfl⟩ := hc
    rw [(checkWinCondition_frame _).2.2.2.2.1]
    show (∀ x y : Int, cellIs p b2 x y = cellIs p s.gameBoard x y) ∧
      cellCount p b2 = cellCount p s.gameBoard
    obtain ⟨-, c2, hc2, hwall⟩ := isValidMove_eq_true.1 hv
    rw [hc] at hc2
    cases hc2
    have hne : ¬(s.playerPosition.x + (directionOffset d).1 =
          s.playerPosition.x + (directionOffset d).1 + (directionOffset d).1 ∧
        s.playerPosition.y + (directionOffset d).2 =
          s.playerPosition.y + (directionOffset d).2 + (directionOffset d).2) := by
      have := directionOffset_ne_zero d
      omega
    have hc3 : cellAt b1 (s.playerPosition.x + (directionOffset d).1)
        (s.playerPosition.y + (directionOffset d).2) = some c0 := by
      rw [cellAt_setCell_of_ne hb1 _ _ hne]
      exact hc0
    have k1 := setCell_same_class p hb1 hc (hbeyond c hwall hcA hc1)
    have k2 := setCell_same_class p hb2 hc3 (by
      rcases hcr with rfl | rfl
      · simpa using hA
      · simpa using h1)
    exact ⟨fun x y => (k2.1 x y).trans (k1.1 x y), k2.2.trans k1.2⟩

theorem isWall_beyond (c : Char) (hw : c ≠ '#') :
    isWall c = isWall (if c = 'a' then '1' else 'A') := by
  have h0 : isWall c = false := by simp [isWall, hw]
  rw [h0]
  split <;> decide

theorem isTargetBearing_beyond (c : Char) (h1 : c ≠ '1') :
    isTargetBearing c = isTargetBearing (if c = 'a' then '1' else 'A') := by
  by_cases ha : c = 'a'
  · subst ha
    decide
  · rw [if_neg ha]
    simp [isTargetBearing, ha, h1]

theorem cellIs_isWall_iff (board : Board) (x y : Int) :
    cellIs isWall board x y = true ↔ cellAt board x y = some '#' := by
  unfold cellIs
  cases cellAt board x y with
  | none => simp
  | some c => simp [isWall]

theorem cellIs_isTargetBearing_iff (board : Board) (x y : Int) :
    cellIs isTargetBearing board x y = true ↔
      (cellAt board x y = some 'a' ∨ cellAt board x y = some '1') := by
  unfold cellIs
  cases cellAt board x y with
  | none => simp
  | some c => simp [isTargetBearing]

/-- C19 (the structural layer is immutable).  From an engine loaded with a rectangular board,
every run of commands returns a state in which, at every coordinate, the cell is a wall `'#'`
exactly when it was one in the loaded board, and bears a target (`'a'` or `'1'`) exactly when it
did in the loaded board; the numbers of wall cells and of target-bearing cells are those of
the loaded board. -/
theorem structural_layer_fixed (lv : Level)
    (hr : Rectangular lv.boardWidth lv.boardHeight lv.gameBoard) (cs : List Command) :
    ∃ s, (Sokoban.load (some lv)).run cs = some s ∧
      (∀ x y : Int,
        (cellAt s.gameBoard x y = some '#' ↔ cellAt lv.gameBoard x y = some '#') ∧
        ((cellAt s.gameBoard x y = some 'a' ∨ cellAt s.gameBoard x y = some '1') ↔
          (cellAt lv.gameBoard x y = some 'a' ∨ cellAt lv.gameBoard x y = some '1'))) ∧
      cellCount isWall s.gameBoard = cellCount isWall lv.gameBoard ∧
      cellCount isTargetBearing s.gameBoard = cellCount isTargetBearing lv.gameBoard := by
  obtain ⟨s, hrun, -, -, he⟩ := run_everywhere
    (P := fun _ b => Rectangular lv.boardWidth lv.boardHeight b ∧
      ((∀ x y : Int, cellIs isWall b x y = cellIs isWall lv.gameBoard x y) ∧
        cellCount isWall b = cellCount isWall lv.gameBoard) ∧
      ((∀ x y : Int, cellIs isTargetBearing b x y = cellIs isTargetBearing lv.gameBoard x y) ∧
        cellCount isTargetBearing b = cellCount isTargetBearing lv.gameBoard))
    (fun _ _ hP => hP.1)
    (fun s s1 d _ _ hP hm => by
      have kw := movePlayer_same_class isWall (fun c hw _ _ => isWall_beyond c hw)
        (by decide) (by decide) hm
      have kt := movePlayer_same_class isTargetBearing
        (fun c _ _ h1 => isTargetBearing_beyond c h1) (by decide) (by decide) hm
      exact ⟨movePlayer_rectangular hm hP.1,
        ⟨fun x y => (kw.1 x y).trans (hP.2.1.1 x y), kw.2.trans hP.2.1.2⟩,
        ⟨fun x y => (kt.1 x y).trans (hP.2.2.1 x y), kt.2.trans hP.2.2.2⟩⟩)
    cs (Sokoban.load (some lv)) rfl rfl
    (load_everywhere lv ⟨hr, ⟨fun _ _ => rfl, rfl⟩, ⟨fun _ _ => rfl, rfl⟩⟩)
  obtain ⟨-, ⟨hw, hwc⟩, ⟨ht, htc⟩⟩ := he.1
  refine ⟨s, hrun, ?_, hwc, htc⟩
  intro x y
  constructor
  · rw [← cellIs_isWall_iff, ← cellIs_isWall_iff, hw x y]
  · rw [← cellIs_isTargetBearing_iff, ← cellIs_isTargetBearing_iff, ht x y]

theorem structural_layer_fixed_witness :
    ∃ s, (Sokoban.load (some yardLevel)).run
        [Command.move Direction.Right, Command.move Direction.Right, Command.undo,
          Command.redo] = some s ∧
      (∀ x y : Int,
        (cellAt s.gameBoard x y = some '#' ↔ cellAt yardLevel.gameBoard x y = some '#') ∧
        ((cellAt s.gameBoard x y = some 'a' ∨ cellAt s.gameBoard x y = some '1') ↔
          (cellAt yardLevel.gameBoard x y = some 'a' ∨
            cellAt yardLevel.gameBoard x y = some '1'))) ∧
      cellCount isWall s.gameBoard = cellCount isWall yardLevel.gameBoard ∧
      cellCount isTargetBearing s.gameBoard = cellCount isTargetBearing yardLevel.gameBoard :=
  structural_layer_fixed yardLevel (by decide)
    [Command.move Direction.Right, Command.move Direction.Right, Command.undo, Command.redo]

/-! ## Soundness of the won flag -/

theorem checkWinCondition_sound (t : Sokoban) :
    (Sokoban.checkWinCondition t).gameWon = true →
      Sokoban.hasBareCrate (Sokoban.checkWinCondition t).gameBoard = false := by
  rw [checkWinCondition_gameWon, (checkWinCondition_frame t).2.2.2.2.1]
  cases Sokoban.hasBareCrate t.gameBoard <;> simp

theorem won_sound_movePlayer {s s1 : Sokoban} {d : Direction}
    (hj : s.gameWon = true → Sokoban.hasBareCrate s.gameBoard = false)
    (hm : s.movePlayer d = some s1) :
    s1.gameWon = true → Sokoban.hasBareCrate s1.gameBoard = false := by
  rcases movePlayer_shape hm with rfl | ⟨p, b, m, rfl⟩
  · exact hj
  · exact checkWinCondition_sound _

theorem won_sound_undo {s : Sokoban}
    (hj : s.gameWon = true → Sokoban.hasBareCrate s.gameBoard = false) :
    s.undo.gameWon = true → Sokoban.hasBareCrate s.undo.gameBoard = false := by
  by_cases hu : s.undoStack = []
  · rw [undo_eq_self hu]
    exact hj
  · intro hw
    rw [undo_gameWon hu] at hw
    cases hw

theorem won_sound_redo {s : Sokoban}
    (hj : s.gameWon = true → Sokoban.hasBareCrate s.gameBoard = false) :
    s.redo.gameWon = true → Sokoban.hasBareCrate s.redo.gameBoard = false := by
  cases hl : s.redoStack.getLast? with
  | none =>
    rw [redo_eq_self (List.getLast?_eq_none_iff.1 hl)]
    exact hj
  | some g =>
    rw [redo_eq_of_getLast hl]
    exact checkWinCondition_sound _

theorem not_hasBareCrate_iff (board : Board) :
    Sokoban.hasBareCrate board = false ↔ ∀ x y, cellAt board x y ≠ some 'A' := by
  have h := hasBareCrate_iff board
  constructor
  · intro hb x y hxy
    have := h.2 ⟨x, y, hxy⟩
    rw [hb] at this
    cases this
  · intro hall
    cases hb : Sokoban.hasBareCrate board with
    | false => rfl
    | true =>
      obtain ⟨x, y, hxy⟩ := h.1 hb
      exact absurd hxy (hall x y)

/-- C20 (soundness of the won flag).  From an engine loaded with a rectangular board, every run
of commands returns a state in which `isWon` implies that no cell of the live board is a bare
crate `'A'`.  The converse fails: the freshly loaded `idleLevel` has no bare crate and is not
won, and neither is the state reached on it by a winning step followed by `undo`. -/
theorem won_flag_sound (lv : Level)
    (hr : Rectangular lv.boardWidth lv.boardHeight lv.gameBoard) (cs : List Command) :
    (∃ s, (Sokoban.load (some lv)).run cs = some s ∧
        (s.isWon = true → ∀ x y, cellAt s.gameBoard x y ≠ some 'A')) ∧
      ((Sokoban.load (some idleLevel)).isWon = false ∧
        ∀ x y, cellAt (Sokoban.load (some idleLevel)).gameBoard x y ≠ some 'A') ∧
      ∃ u, (Sokoban.load (some idleLevel)).run
          [Command.move Direction.Right, Command.undo] = some u ∧
        u.isWon = false ∧ ∀ x y, cellAt u.gameBoard x y ≠ some 'A' := by
  refine ⟨?_, ⟨by decide, (not_hasBareCrate_iff _).1 (by decide)⟩, ?_⟩
  · obtain ⟨s, hrun, -, hj⟩ := run_invariant
      (J := fun s => s.gameWon = true → Sokoban.hasBareCrate s.gameBoard = false)
      (w := lv.boardWidth) (h := lv.boardHeight)
      (fun s s1 d _ hj hm => won_sound_movePlayer hj hm)
      (fun s _ hj => won_sound_undo hj)
      (fun s _ hj => won_sound_redo hj)
      (fun s _ _ hw => by cases hw)
      cs (Sokoban.load (some lv)) (sound_load lv hr) (fun hw => by cases hw)
    exact ⟨s, hrun, fun hw => (not_hasBareCrate_iff _).1 (hj hw)⟩
  · refine ⟨((Sokoban.load (some idleLevel)).run
      [Command.move Direction.Right, Command.undo]).getD Sokoban.init, by decide, by decide,
      (not_hasBareCrate_iff _).1 (by decide)⟩

theorem won_flag_sound_witness :
    (∃ s, (Sokoban.load (some demoLevel)).run
          [Command.move Direction.Right, Command.undo, Command.redo] = some s ∧
        (s.isWon = true → ∀ x y, cellAt s.gameBoard x y ≠ some 'A')) ∧
      ((Sokoban.load (some idleLevel)).isWon = false ∧
        ∀ x y, cellAt (Sokoban.load (some idleLevel)).gameBoard x y ≠ some 'A') ∧
      ∃ u, (Sokoban.load (some idleLevel)).run
          [Command.move Direction.Right, Command.undo] = some u ∧
        u.isWon = false ∧ ∀ x y, cellAt u.gameBoard x y ≠ some 'A' :=
  won_flag_sound demoLevel (by decide)
    [Command.move Direction.Right, Command.undo, Command.redo]

/-! ## The victory sound -/

theorem checkWinCondition_cue (t : Sokoban) :
    ((Sokoban.checkWinCondition t).gameWon = true →
      (Sokoban.checkWinCondition t).victorySoundPlayed = true) ∧
    (t.victorySoundPlayed = true →
      (Sokoban.checkWinCondition t).victorySoundPlays = t.victorySoundPlays) ∧
    (t.victorySoundPlayed = false → (Sokoban.checkWinCondition t).gameWon = true →
      (Sokoban.checkWinCondition t).victorySoundPlays = t.victorySoundPlays + 1) ∧
    (t.victorySoundPlayed = false → (Sokoban.checkWinCondition t).gameWon = false →
      (Sokoban.checkWinCondition t).victorySoundPlayed = false) ∧
    (Sokoban.checkWinCondition t).victorySoundPlays +
        (if (Sokoban.checkWinCondition t).victorySoundPlayed = true then 0 else 1) ≤
      t.victorySoundPlays + (if t.victorySoundPlayed = true then 0 else 1) := by
  unfold Sokoban.checkWinCondition
  by_cases hb : Sokoban.hasBareCrate t.gameBoard = true
  · by_cases hv : t.victorySoundPlayed = false
    · simp [hb, hv]
    · simp [hb, hv]
  · by_cases hv : t.victorySoundPlayed = false
    · simp [hb, hv]
    · simp [hb, hv]

/-- What one command does to the won flag, the played flag and the play counter: it leaves
the two sound members alone and keeps or clears the won flag; or it is `reset`; or it ends in
a win check on an engine with the sound members of the state before. -/
theorem exec_cue_cases {s s1 : Sokoban} {c : Command} (h : s.exec c = some s1) :
    (s1.victorySoundPlayed = s.victorySoundPlayed ∧
        s1.victorySoundPlays = s.victorySoundPlays ∧
        (s1.gameWon = s.gameWon ∨ s1.gameWon = false)) ∨
      (c = Command.reset ∧ s1 = s.reset) ∨
      ∃ t, s1 = Sokoban.checkWinCondition t ∧
        t.victorySoundPlayed = s.victorySoundPlayed ∧
        t.victorySoundPlays = s.victorySoundPlays := by
  cases c with
  | move d =>
    rcases movePlayer_shape (d := d) h with rfl | ⟨p, b, m, rfl⟩
    · exact Or.inl ⟨rfl, rfl, Or.inl rfl⟩
    · exact Or.inr (Or.inr ⟨_, rfl, rfl, rfl⟩)
  | undo =>
    simp only [Sokoban.exec, Option.some.injEq] at h
    subst h
    left
    cases hl : s.undoStack.getLast? with
    | none =>
      rw [undo_eq_self (List.getLast?_eq_none_iff.1 hl)]
      exact ⟨rfl, rfl, Or.inl rfl⟩
    | some g =>
      rw [undo_eq_of_getLast hl]
      exact ⟨rfl, rfl, Or.inr rfl⟩
  | redo =>
    simp only [Sokoban.exec, Option.some.injEq] at h
    subst h
    cases hl : s.redoStack.getLast? with
    | none =>
      rw [redo_eq_self (List.getLast?_eq_none_iff.1 hl)]
      exact Or.inl ⟨rfl, rfl, Or.inl rfl⟩
    | some g =>
      rw [redo_eq_of_getLast hl]
      exact Or.inr (Or.inr ⟨_, rfl, rfl, rfl⟩)
  | reset =>
    simp only [Sokoban.exec, Option.some.injEq] at h
    exact Or.inr (Or.inl ⟨rfl, h.symm⟩)

theorem exec_won_played {s s1 : Sokoban} {c : Command} (h : s.exec c = some s1)
    (hj : s.gameWon = true → s.victorySoundPlayed = true) :
    s1.gameWon = true → s1.victorySoundPlayed = true := by
  rcases exec_cue_cases h with ⟨hv, -, hw | hw⟩ | ⟨-, rfl⟩ | ⟨t, rfl, -, -⟩
  · intro h1
    rw [hv]
    exact hj (hw ▸ h1)
  · intro h1
    rw [hw] at h1
    cases h1
  · intro h1
    cases h1
  · exact (checkWinCondition_cue t).1

theorem exec_quiet_of_won {s s1 : Sokoban} {c : Command} (h : s.exec c = some s1)
    (hj : s.gameWon = true → s.victorySoundPlayed = true) (hw : s.gameWon = true) :
    s1.victorySoundPlays = s.victorySoundPlays := by
  rcases exec_cue_cases h with ⟨-, hp, -⟩ | ⟨-, rfl⟩ | ⟨t, rfl, hv, hp⟩
  · exact hp
  · rfl
  · rw [(checkWinCondition_cue t).2.1 (hv.trans (hj hw)), hp]

theorem exec_first_win {s s1 : Sokoban} {c : Command} (h : s.exec c = some s1)
    (hv : s.victorySoundPlayed = false) (hw : s.gameWon = false) (hw1 : s1.gameWon = true) :
    s1.victorySoundPlays = s.victorySoundPlays + 1 := by
  rcases exec_cue_cases h with ⟨-, -, hg | hg⟩ | ⟨-, rfl⟩ | ⟨t, rfl, hvt, hp⟩
  · rw [hg, hw] at hw1
    cases hw1
  · rw [hg] at hw1
    cases hw1
  · cases hw1
  · rw [(checkWinCondition_cue t).2.2.1 (hvt.trans hv) hw1, hp]

theorem exec_stays_unplayed {s s1 : Sokoban} {c : Command} (h : s.exec c = some s1)
    (hv : s.victorySoundPlayed = false) (hw1 : s1.gameWon = false) :
    s1.victorySoundPlayed = false := by
  rcases exec_cue_cases h with ⟨hv1, -, -⟩ | ⟨-, rfl⟩ | ⟨t, rfl, hvt, -⟩
  · exact hv1.trans hv
  · rfl
  · exact (checkWinCondition_cue t).2.2.2.1 (hvt.trans hv) hw1

theorem exec_budget {s s1 : Sokoban} {c : Command} (h : s.exec c = some s1)
    (hc : c ≠ Command.reset) :
    s1.victorySoundPlays + (if s1.victorySoundPlayed = true then 0 else 1) ≤
      s.victorySoundPlays + (if s.victorySoundPlayed = true then 0 else 1) := by
  rcases exec_cue_cases h with ⟨hv, hp, -⟩ | ⟨hr, -⟩ | ⟨t, rfl, hv, hp⟩
  · rw [hv, hp]
  · exact absurd hr hc
  · have := (checkWinCondition_cue t).2.2.2.2
    rw [hv, hp] at this
    exact this

theorem run_cons (s : Sokoban) (c : Command) (cs : List Command) :
    s.run (c :: cs) = (s.exec c).bind (fun s1 => s1.run cs) := by
  simp only [Sokoban.run]
  cases s.exec c <;> rfl

theorem run_append (s : Sokoban) (as bs : List Command) :
    s.run (as ++ bs) = (s.run as).bind (fun s1 => s1.run bs) := by
  induction as generalizing s with
  | nil => rfl
  | cons a as ih =>
    rw [List.cons_append, run_cons, run_cons]
    cases s.exec a with
    | none => rfl
    | some s1 => exact ih s1

/-- Without a `reset`, a run plays the victory sound at most once, and not at all when it was
played before. -/
theorem run_budget (cs : List Command) (hcs : Command.reset ∉ cs) :
    ∀ s s1 : Sokoban, s.run cs = some s1 →
      s1.victorySoundPlays + (if s1.victorySoundPlayed = true then 0 else 1) ≤
        s.victorySoundPlays + (if s.victorySoundPlayed = true then 0 else 1) := by
  induction cs with
  | nil =>
    intro s s1 h
    cases h
    exact le_refl _
  | cons c cs ih =>
    intro s s1 h
    rw [run_cons] at h
    cases he : s.exec c with
    | none =>
      rw [he] at h
      cases h
    | some s2 =>
      rw [he] at h
      have hc : c ≠ Command.reset := fun e => hcs (e ▸ List.mem_cons_self _ _)
      have hcs1 : Command.reset ∉ cs := fun hm => hcs (List.mem_cons_of_mem _ hm)
      exact le_trans (ih hcs1 s2 s1 h) (exec_budget he hc)

/-- While the won flag has never been set along a run from an engine that has not played the
sound, the sound stays unplayed. -/
theorem run_never_won (cs : List Command) :
    ∀ s s1 : Sokoban, s.victorySoundPlayed = false → s.everWon cs = false →
      s.run cs = some s1 → s1.victorySoundPlayed = false ∧ s1.gameWon = false := by
  induction cs with
  | nil =>
    intro s s1 hv he h
    cases h
    exact ⟨hv, he⟩
  | cons c cs ih =>
    intro s s1 hv he h
    rw [run_cons] at h
    simp only [Sokoban.everWon, Bool.or_eq_false_iff] at he
    cases hx : s.exec c with
    | none =>
      rw [hx] at h
      cases h
    | some s2 =>
      rw [hx] at h he
      have hw2 : s2.gameWon = false := by
        have h2 := he.2
        cases cs with
        | nil => exact h2
        | cons c2 cs2 =>
          simp only [Sokoban.everWon, Bool.or_eq_false_iff] at h2
          exact h2.1
      exact ih s2 s1 (exec_stays_unplayed hx hv hw2) he.2 h

theorem exec_isSome {w h : Int} {s : Sokoban} (hs : s.Sound w h) (c : Command) :
    ∃ s1, s.exec c = some s1 := by
  cases c with
  | move d => exact movePlayer_isSome d (sound_rectangular hs)
  | undo => exact ⟨_, rfl⟩
  | redo => exact ⟨_, rfl⟩
  | reset => exact ⟨_, rfl⟩

theorem run_won_played {w h : Int} (cs : List Command) (s : Sokoban) (hs : s.Sound w h)
    (hj : s.gameWon = true → s.victorySoundPlayed = true) :
    ∃ s1, s.run cs = some s1 ∧ s1.Sound w h ∧
      (s1.gameWon = true → s1.victorySoundPlayed = true) :=
  run_invariant (J := fun s => s.gameWon = true → s.victorySoundPlayed = true)
    (fun _ _ d _ hj hm => exec_won_played (c := Command.move d) hm hj)
    (fun _ _ hj => exec_won_played (c := Command.undo) rfl hj)
    (fun _ _ hj => exec_won_played (c := Command.redo) rfl hj)
    (fun _ _ hj => exec_won_played (c := Command.reset) rfl hj)
    cs s hs hj

theorem fresh_of_run {lv : Level} {pre : List Command} {s0 : Sokoban}
    (hpre : pre = [] ∨ pre.getLast? = some Command.reset)
    (h0 : (Sokoban.load (some lv)).run pre = some s0) :
    s0.gameWon = false ∧ s0.victorySoundPlayed = false := by
  rcases hpre with rfl | hl
  · cases h0
    exact ⟨rfl, rfl⟩
  · obtain ⟨p, rfl⟩ := List.getLast?_eq_some_iff.1 hl
    rw [run_append] at h0
    cases hp : (Sokoban.load (some lv)).run p with
    | none =>
      rw [hp] at h0
      cases h0
    | some t =>
      rw [hp] at h0
      have h1 : some t.reset = some s0 := h0
      cases h1
      exact ⟨rfl, rfl⟩

/-- C17 (one-shot win cue).  Let `s0` be a fresh engine: loaded with a rectangular board, or
reached from such a load by commands the last of which is `reset`; it is not won.  Every run
of commands `cs` from `s0` returns a state `s`, and:
if `cs` contains no `reset`, the victory sound was played at most once during `cs`;
every further command `c` returns from `s`; it does not play the sound when `s` is already won;
and when the won flag was never set from `s0` up to `s` and `c` sets it, so that `c` is the
first command to turn the flag from false to true, then `c` plays the sound exactly once. -/
theorem one_shot_win_cue (lv : Level)
    (hr : Rectangular lv.boardWidth lv.boardHeight lv.gameBoard) (pre cs : List Command)
    (hpre : pre = [] ∨ pre.getLast? = some Command.reset) :
    ∃ s0 s, (Sokoban.load (some lv)).run pre = some s0 ∧ s0.run cs = some s ∧
      s0.gameWon = false ∧
      (Command.reset ∉ cs → s.victorySoundPlays ≤ s0.victorySoundPlays + 1) ∧
      ∀ c, ∃ s1, s.exec c = some s1 ∧
        (s.gameWon = true → s1.victorySoundPlays = s.victorySoundPlays) ∧
        (s0.everWon cs = false → s1.gameWon = true →
          s1.victorySoundPlays = s.victorySoundPlays + 1) := by
  obtain ⟨s0, h0, hs0, hj0⟩ := run_won_played pre (Sokoban.load (some lv)) (sound_load lv hr)
    (fun hw => by cases hw)
  obtain ⟨s, hs, hss, hj⟩ := run_won_played cs s0 hs0 hj0
  obtain ⟨hw0, hv0⟩ := fresh_of_run hpre h0
  refine ⟨s0, s, h0, hs, hw0, ?_, ?_⟩
  · intro hcs
    have hb := run_budget cs hcs s0 s hs
    rw [hv0] at hb
    simp only [Bool.false_eq_true, if_false] at hb
    exact le_trans (Nat.le_add_right _ _) hb
  · intro c
    obtain ⟨s1, he⟩ := exec_isSome hss c
    refine ⟨s1, he, exec_quiet_of_won he hj, ?_⟩
    intro hnever hw1
    obtain ⟨hv, hw⟩ := run_never_won cs s0 s hv0 hnever hs
    exact exec_first_win he hv hw hw1

theorem one_shot_win_cue_witness :
    ∃ s0 s s1, (Sokoban.load (some demoLevel)).run
        [Command.move Direction.Right, Command.reset] = some s0 ∧
      s0.run [Command.move Direction.Left] = some s ∧
      s.exec (Command.move Direction.Right) = some s1 ∧
      s.victorySoundPlays ≤ s0.victorySoundPlays + 1 ∧
      s1.victorySoundPlays = s.victorySoundPlays + 1 := by
  obtain ⟨s0, s, h0, hs, -, hmost, hstep⟩ := one_shot_win_cue demoLevel (by decide)
    [Command.move Direction.Right, Command.reset] [Command.move Direction.Left]
    (Or.inr (by decide))
  obtain ⟨s1, he, -, hfirst⟩ := hstep (Command.move Direction.Right)
  have e0 : demoReset = s0 := Option.some.inj
    ((by decide : (Sokoban.load (some demoLevel)).run
      [Command.move Direction.Right, Command.reset] = some demoReset).symm.trans h0)
  subst e0
  have e1 : demoReset = s := Option.some.inj
    ((by decide : demoReset.run [Command.move Direction.Left] = some demoReset).symm.trans hs)
  subst e1
  have hw1 : s1.gameWon = true := by
    have hg : (demoReset.exec (Command.move Direction.Right)).map Sokoban.gameWon =
        some true := by decide
    rw [he] at hg
    exact Option.some.inj hg
  exact ⟨_, _, s1, h0, hs, he, hmost (by decide), hfirst (by decide) hw1⟩

end SB
